import Mathlib

/-!
# Slot game core: payout evaluation, reel strip, payline generator

A shallow embedding of the decision logic of the slot game
(`src/math/GameMath.js`, `src/components/Reel.js`, `src/utils/Config.js`).

Conventions of the embedding:

* JavaScript numbers are exact rationals (`ℚ`); row indices are integers (`ℤ`).
  Only `WeightedRandom.pick`, whose result depends on it, rounds its product
  and its differences to doubles (`toDouble`).
* Reading an array past its end (or at a negative index) yields `undefined`;
  such a read has type `Option _` and `none` stands for `undefined`.
* A `TypeError` (a property read or a method call on `undefined`) makes a
  function return `none`.
* `Math.random()` and `Date.now()` are inputs of the functions that call them.
-/

namespace SlotGame

/-! ## Array reads -/

/-- The read `xs[i]` of a JavaScript array at an integer index: `undefined`
(`none`) when the index is negative or past the end. -/
def jsIndex {α : Type} (xs : List α) (i : ℤ) : Option α :=
  if i < 0 then none else xs[i.toNat]?

/-! ## WinCalculator (`src/math/GameMath.js`) -/

/-- The object `{ amount, count }` returned by `calculateLineWin`. -/
structure LineWin where
  amount : ℚ
  count : ℕ
deriving DecidableEq, Repr

/-- A payout table `payouts[symbol][count]`. The key may be `undefined`
(`none`), as it is when the line is empty or a grid read missed; an absent
entry is `none`. -/
abbrev PayoutTable (σ : Type) := Option σ → Option (ℕ → Option ℚ)

/-- The counting loop of `calculateLineWin`, entered at `i = 1` with
`count = 1`: it runs over the symbols after the first and stops at the first
one that differs from `first`. -/
def countLoop {σ : Type} [DecidableEq σ] (first : Option σ) :
    List (Option σ) → ℕ → ℕ
  | [], count => count
  | s :: rest, count =>
    if s = first then countLoop first rest (count + 1) else count

/-- `WinCalculator.calculateLineWin(symbols, payouts, betPerLine)`.
`payout && payout[count]` is truthy when both entries are present and the
multiplier is not zero. -/
def calculateLineWin {σ : Type} [DecidableEq σ] (symbols : List (Option σ))
    (payouts : PayoutTable σ) (betPerLine : ℚ) : LineWin :=
  let first := symbols.head?.join
  let count := countLoop first symbols.tail 1
  match payouts first with
  | none => { amount := 0, count := 0 }
  | some payout =>
    match payout count with
    | none => { amount := 0, count := 0 }
    | some m =>
      if m ≠ 0 then { amount := m * betPerLine, count := count }
      else { amount := 0, count := 0 }

/-- The loop of `calculatePaylineWins` that collects the symbols along one
payline: `symbols.push(results[reel][row])` for `reel = 0 .. payline.length - 1`.
When `results[reel]` is `undefined` the read `results[reel][row]` raises. -/
def lineSymbolsLoop {σ : Type} (results : List (List σ)) :
    ℕ → List ℤ → List (Option σ) → Option (List (Option σ))
  | _, [], symbols => some symbols
  | reel, row :: rest, symbols =>
    match results[reel]? with
    | none => none
    | some column => lineSymbolsLoop results (reel + 1) rest (symbols ++ [jsIndex column row])

/-- An entry of `winningLines`. -/
structure WinningLine (σ : Type) where
  lineIndex : ℕ
  payline : List ℤ
  symbols : List (Option σ)
  count : ℕ
  amount : ℚ
deriving DecidableEq, Repr

/-- The object `{ totalWin, winningLines }` returned by `calculatePaylineWins`. -/
structure PaylineWins (σ : Type) where
  totalWin : ℚ
  winningLines : List (WinningLine σ)
deriving DecidableEq, Repr

/-- The body of the `paylines.forEach` callback of `calculatePaylineWins`,
acting on the two accumulators `totalWin` and `winningLines`. -/
def paylineStep {σ : Type} [DecidableEq σ] (results : List (List σ))
    (payouts : PayoutTable σ) (betPerLine : ℚ) (acc : PaylineWins σ)
    (payline : List ℤ) (lineIndex : ℕ) : Option (PaylineWins σ) :=
  match lineSymbolsLoop results 0 payline [] with
  | none => none
  | some symbols =>
    let win := calculateLineWin symbols payouts betPerLine
    if win.amount > 0 then
      some { totalWin := acc.totalWin + win.amount
             winningLines := acc.winningLines ++
               [{ lineIndex := lineIndex + 1, payline := payline, symbols := symbols,
                  count := win.count, amount := win.amount }] }
    else some acc

/-- The iteration `paylines.forEach((payline, lineIndex) => ...)`. -/
def paylineLoop {σ : Type} [DecidableEq σ] (results : List (List σ))
    (payouts : PayoutTable σ) (betPerLine : ℚ) :
    ℕ → List (List ℤ) → PaylineWins σ → Option (PaylineWins σ)
  | _, [], acc => some acc
  | lineIndex, payline :: rest, acc =>
    match paylineStep results payouts betPerLine acc payline lineIndex with
    | none => none
    | some acc' => paylineLoop results payouts betPerLine (lineIndex + 1) rest acc'

/-- `WinCalculator.calculatePaylineWins(results, paylines, payouts, betPerLine)`;
`none` when a payline is longer than the grid has reels (a `TypeError`). -/
def calculatePaylineWins {σ : Type} [DecidableEq σ] (results : List (List σ))
    (paylines : List (List ℤ)) (payouts : PayoutTable σ) (betPerLine : ℚ) :
    Option (PaylineWins σ) :=
  paylineLoop results payouts betPerLine 0 paylines { totalWin := 0, winningLines := [] }

/-! ### The evaluator as the specification words it -/

/-- The symbols `grid[r][payline[r]]` along a payline, reel by reel. -/
def paylineSymbols {σ : Type} (grid : List (List σ)) (payline : List ℤ) : List (Option σ) :=
  payline.enum.map (fun p => (grid[p.1]?).bind (fun column => jsIndex column p.2))

/-- The entry the specification expects for the payline `p.2` at position
`p.1` of the list: present when its line win is positive, labelled with the
position plus one. -/
def winningLineAt {σ : Type} [DecidableEq σ] (grid : List (List σ))
    (payouts : PayoutTable σ) (betPerLine : ℚ) (p : ℕ × List ℤ) : Option (WinningLine σ) :=
  let win := calculateLineWin (paylineSymbols grid p.2) payouts betPerLine
  if win.amount > 0 then
    some { lineIndex := p.1 + 1, payline := p.2, symbols := paylineSymbols grid p.2,
           count := win.count, amount := win.amount }
  else none

/-- The winning lines as the specification describes them: the paylines whose
line win is positive, in list order. -/
def expectedWinningLines {σ : Type} [DecidableEq σ] (grid : List (List σ))
    (paylines : List (List ℤ)) (payouts : PayoutTable σ) (betPerLine : ℚ) :
    List (WinningLine σ) :=
  paylines.enum.filterMap (winningLineAt grid payouts betPerLine)

/-! ## Reel (`src/components/Reel.js`) -/

/-- The fields of `config` that the reel reads. -/
structure ReelConfig where
  rows : ℕ
  symbolSize : ℚ
  symbolPadding : ℚ
  spinDuration : ℚ
deriving DecidableEq, Repr

/-- A strip symbol: its `value` and its vertical position `container.y`. -/
structure StripSymbol (σ : Type) where
  value : Option σ
  y : ℚ
deriving DecidableEq, Repr

/-- The state of a `Reel`. The PIXI container (and with it the cosmetic
`bounce`, which only moves that container) is not part of the state; the
symbol generator is replaced by the values it returns, see `Tick.pick`. -/
structure Reel (σ : Type) where
  index : ℕ
  config : ReelConfig
  symbols : List (StripSymbol σ)
  spinning : Bool
  stopping : Bool
  targetSymbols : List σ
  targetsLoaded : Bool
  spinSpeed : ℚ
  currentSpeed : ℚ
  spinStartTime : ℚ
  slowdownStartTime : ℚ
deriving DecidableEq, Repr

/-- What one call of `update()` reads from outside the reel: the three
successive values of `Date.now()` (for `elapsed`, for `slowdownStartTime`, for
`slowdownElapsed`) and the value `symbolGenerator.pick()` returns for the
strip symbol `idx` if that symbol is given a random value in this call. -/
structure Tick (σ : Type) where
  now : ℚ
  nowSlowdown : ℚ
  nowEase : ℚ
  pick : ℕ → Option σ

/-- The constructor with `createStrip()`: `rows + 8` symbols on the grid
positions, carrying the values `pick i` drawn by the symbol generator. -/
def Reel.create {σ : Type} (index : ℕ) (config : ReelConfig) (pick : ℕ → Option σ) : Reel σ :=
  { index := index
    config := config
    symbols := (List.range (config.rows + 8)).map (fun (i : ℕ) =>
      { value := pick i, y := (i : ℚ) * (config.symbolSize + config.symbolPadding) })
    spinning := false
    stopping := false
    targetSymbols := []
    targetsLoaded := false
    spinSpeed := 25 + (index : ℚ) * 6
    currentSpeed := 25 + (index : ℚ) * 6
    spinStartTime := 0
    slowdownStartTime := 0 }

/-- `startSpin(targetSymbols)`, with the value of `Date.now()` as `now`. -/
def startSpin {σ : Type} (r : Reel σ) (targetSymbols : List σ) (now : ℚ) : Reel σ :=
  { r with
    spinning := true
    stopping := false
    targetSymbols := targetSymbols
    targetsLoaded := false
    currentSpeed := r.spinSpeed
    spinStartTime := now
    slowdownStartTime := 0 }

/-- `stopImmediately()`, with the value of `Date.now()` as `now`. -/
def stopImmediately {σ : Type} (r : Reel σ) (now : ℚ) : Reel σ :=
  { r with stopping := true, slowdownStartTime := now }

/-- The read `targetSymbols[i % rows]` of the buffer branch of
`loadTargetSymbolsSmooth`: for `rows = 0` the index `i % 0` is `NaN` and the
read yields `undefined`. -/
def targetAtMod {σ : Type} (targetSymbols : List σ) (rows i : ℕ) : Option σ :=
  if rows = 0 then none else targetSymbols[i % rows]?

/-- `loadTargetSymbolsSmooth()`. -/
def loadTargetSymbolsSmooth {σ : Type} (r : Reel σ) : Reel σ :=
  { r with
    symbols := r.symbols.mapIdx (fun i symbol =>
      if i < r.config.rows then { symbol with value := r.targetSymbols[i]? }
      else { symbol with value := targetAtMod r.targetSymbols r.config.rows i }) }

/-- `finalizeStop()`. The first loop reads `this.symbols[row]` for every
`row < rows`, which raises when the strip is shorter than `rows`. -/
def finalizeStop {σ : Type} (r : Reel σ) : Option (Reel σ) :=
  if r.symbols.length < r.config.rows then none
  else
    let snapped := r.symbols.mapIdx (fun row symbol =>
      if row < r.config.rows then
        { value := r.targetSymbols[row]?
          y := (row : ℚ) * (r.config.symbolSize + r.config.symbolPadding) }
      else symbol)
    let reset := snapped.mapIdx (fun i symbol =>
      { symbol with y := (i : ℚ) * (r.config.symbolSize + r.config.symbolPadding) })
    some { r with symbols := reset, spinning := false, stopping := false }

/-- `getVisibleSymbols()`. -/
def getVisibleSymbols {σ : Type} (r : Reel σ) : List (Option σ) :=
  (r.symbols.take r.config.rows).map (fun symbol => symbol.value)

/-- The body of the wrap loop of `update()` for the strip symbol `idx`. -/
def wrapSymbol {σ : Type} (r : Reel σ) (elapsed loadTargetsAt totalHeight : ℚ)
    (pick : ℕ → Option σ) (idx : ℕ) (symbol : StripSymbol σ) : StripSymbol σ :=
  if symbol.y ≥ totalHeight then
    if r.targetsLoaded = true ∧ idx < r.config.rows then
      { value := r.targetSymbols[idx]?, y := symbol.y - totalHeight }
    else if r.targetsLoaded = false ∧ elapsed < loadTargetsAt then
      { value := pick idx, y := symbol.y - totalHeight }
    else { symbol with y := symbol.y - totalHeight }
  else symbol

/-- The first half of `update()`: move every symbol down by `currentSpeed`,
then wrap the symbols that passed the end of the strip. -/
def moveAndWrap {σ : Type} (r : Reel σ) (elapsed loadTargetsAt : ℚ)
    (pick : ℕ → Option σ) : Reel σ :=
  let totalHeight : ℚ :=
    (r.symbols.length : ℚ) * (r.config.symbolSize + r.config.symbolPadding)
  let moved := r.symbols.map (fun symbol => { symbol with y := symbol.y + r.currentSpeed })
  { r with symbols := moved.mapIdx (wrapSymbol r elapsed loadTargetsAt totalHeight pick) }

/-- The step `if (!this.targetsLoaded && elapsed >= loadTargetsAt)` of `update()`. -/
def preload {σ : Type} (r : Reel σ) (elapsed loadTargetsAt : ℚ) : Reel σ :=
  if r.targetsLoaded = false ∧ elapsed ≥ loadTargetsAt then
    { loadTargetSymbolsSmooth r with targetsLoaded := true }
  else r

/-- The step `if (!this.stopping)` inside the slowdown branch of `update()`. -/
def enterSlowdown {σ : Type} (r : Reel σ) (now : ℚ) : Reel σ :=
  if r.stopping = false then
    let r' := { r with stopping := true, slowdownStartTime := now }
    if r'.targetsLoaded = false then { loadTargetSymbolsSmooth r' with targetsLoaded := true }
    else r'
  else r

/-- The slowdown branch of `update()`: set `currentSpeed` from the quartic
ease-out and finalize when it drops below 0.3. -/
def slowdown {σ : Type} (r : Reel σ) (tk : Tick σ) : Option (Reel σ) :=
  let r3 := enterSlowdown r tk.nowSlowdown
  let slowdownElapsed := tk.nowEase - r3.slowdownStartTime
  let slowdownProgress := min (slowdownElapsed / 1000) 1
  let easeOutQuart := 1 - (1 - slowdownProgress) ^ 4
  let r4 := { r3 with currentSpeed := r3.spinSpeed * (1 - easeOutQuart) }
  if r4.currentSpeed < 3 / 10 then finalizeStop r4 else some r4

/-- `update()`. -/
def update {σ : Type} (r : Reel σ) (tk : Tick σ) : Option (Reel σ) :=
  if r.spinning = false then some r
  else
    let elapsed := tk.now - r.spinStartTime
    let slowdownStartTime : ℚ := r.config.spinDuration + (r.index : ℚ) * 200
    let loadPercent : ℚ := 4 / 10 - (r.index : ℚ) * (2 / 100)
    let loadTargetsAt := slowdownStartTime * loadPercent
    let r1 := moveAndWrap r elapsed loadTargetsAt tk.pick
    let r2 := preload r1 elapsed loadTargetsAt
    if r2.stopping = true ∨ elapsed > slowdownStartTime then slowdown r2 tk
    else some r2

/-- A sequence of `update()` calls, one per tick. -/
def runTicks {σ : Type} (r : Reel σ) : List (Tick σ) → Option (Reel σ)
  | [] => some r
  | tk :: rest =>
    match update r tk with
    | none => none
    | some r' => runTicks r' rest

/-- The strip carries the target sequence: every strip index `i` holds
`targetSymbols[i mod rows]`. -/
def carriesTargets {σ : Type} (r : Reel σ) : Prop :=
  ∀ i (h : i < r.symbols.length),
    (r.symbols.get ⟨i, h⟩).value = targetAtMod r.targetSymbols r.config.rows i

/-- The values on the strip, in strip order. -/
def stripValues {σ : Type} (r : Reel σ) : List (Option σ) :=
  r.symbols.map (fun symbol => symbol.value)

/-! ### A concrete reel

The reel 0 of the configured game (4 rows, symbols of size 140 with padding 24,
spin duration 1250) with a strip of `A`s, used to evaluate the code on. -/

/-- The reel-related values of `CONFIG`. -/
def exampleConfig : ReelConfig :=
  { rows := 4, symbolSize := 140, symbolPadding := 24, spinDuration := 1250 }

/-- Reel 0 as constructed, every strip symbol showing `A`. -/
def exampleReel : Reel Char :=
  Reel.create 0 exampleConfig (fun _ => some 'A')

/-- Reel 0 right after `startSpin(['B','A','A','A'])` at time 0. -/
def exampleSpinning : Reel Char :=
  startSpin exampleReel ['B', 'A', 'A', 'A'] 0

/-- A tick at clock time `t` whose random picks are all `A`. -/
def exampleTick (t : ℚ) : Tick Char :=
  { now := t, nowSlowdown := t, nowEase := t, pick := fun _ => some 'A' }

/-! ## PaylineGenerator (`src/utils/Config.js`)

The generator is embedded for grid shapes with `reels ≥ 2` and `rows ≥ 1`;
outside them the source computes with `NaN` (`0 / 0`, `x % 0`). The runtime
function `Math.sin` is not part of the repository: the value
`Math.sin((i * freq * Math.PI) / (reels - 1))` is the parameter `wave i freq`.
The values returned by the successive calls of `Math.random()` inside one call
of `generateRandomPatterns` are the parameter `rnd 0, rnd 1, ...`. -/

/-- `isDuplicateLine(lines, pattern)`. -/
def isDuplicateLine (lines : List (List ℤ)) (pattern : List ℤ) : Bool :=
  lines.any (fun line =>
    decide (line.length = pattern.length) &&
      line.enum.all (fun p => decide (pattern[p.1]? = some p.2)))

/-- The statement `if (!this.isDuplicateLine(lines, pattern)) lines.push(pattern)`. -/
def pushIfNew (lines : List (List ℤ)) (pattern : List ℤ) : List (List ℤ) :=
  if isDuplicateLine lines pattern then lines else lines ++ [pattern]

/-- `generateHorizontal()`. -/
def generateHorizontal (reels rows : ℕ) : List (List ℤ) :=
  (List.range rows).map (fun (row : ℕ) => List.replicate reels (row : ℤ))

/-- `generateDiagonals()`. -/
def generateDiagonals (reels rows : ℕ) : List (List ℤ) :=
  let desc := (List.range reels).map (fun (i : ℕ) =>
    let row : ℤ := ⌊((i : ℚ) / ((reels : ℚ) - 1)) * ((rows : ℚ) - 1)⌋
    min row ((rows : ℤ) - 1))
  let asc := (List.range reels).map (fun (i : ℕ) =>
    let row : ℤ := (rows : ℤ) - 1 - ⌊((i : ℚ) / ((reels : ℚ) - 1)) * ((rows : ℚ) - 1)⌋
    max row 0)
  [desc, asc]

/-- The array `patterns` of `generateVShapes()`. -/
def vShapePatterns : List (List ℤ) :=
  [[0, 1, 2, 1, 0], [1, 2, 2, 2, 1], [0, 0, 1, 0, 0],
   [1, 1, 2, 1, 1], [0, 1, 1, 1, 0], [2, 1, 0, 1, 2],
   [1, 0, 0, 0, 1], [2, 2, 1, 2, 2], [1, 1, 0, 1, 1],
   [2, 1, 1, 1, 2], [0, 0, 2, 0, 0], [2, 2, 0, 2, 2],
   [0, 1, 2, 2, 0], [2, 1, 0, 0, 2], [1, 0, 1, 0, 1]]

/-- `generateVShapes()`. -/
def generateVShapes (rows : ℕ) : List (List ℤ) :=
  vShapePatterns.filter (fun pattern =>
    pattern.all (fun row => decide (row ≥ 0) && decide (row < (rows : ℤ))))

/-- The pattern built in the inner loop of `generateWavePatterns()` for one
`freq` and one `offset`; `%` is the truncating remainder. -/
def wavePattern (reels rows : ℕ) (wave : ℕ → ℕ → ℚ) (freq offset : ℕ) : List ℤ :=
  (List.range reels).map (fun (i : ℕ) =>
    let row : ℤ := ⌊((wave i freq + 1) / 2) * ((rows : ℚ) - 1)⌋
    Int.tmod (row + (offset : ℤ)) (rows : ℤ))

/-- `generateWavePatterns()`. -/
def generateWavePatterns (reels rows : ℕ) (wave : ℕ → ℕ → ℚ) : List (List ℤ) :=
  let lines := [1, 2, 3, 4].foldl (fun lines (freq : ℕ) =>
    (List.range rows).foldl (fun lines (offset : ℕ) =>
      pushIfNew lines (wavePattern reels rows wave freq offset)) lines) []
  lines.take 20

/-- The two `if`s after `currentRow += step`: the bounce at the boundary. -/
def bounce (rows : ℕ) (currentRow : ℤ) : ℤ :=
  let c := if currentRow < 0 then 1 else currentRow
  if c ≥ (rows : ℤ) then (rows : ℤ) - 2 else c

/-- The inner loop of `generateStepPatterns()` over the remaining reels. -/
def stepWalk (rows : ℕ) (step : ℤ) : ℕ → ℤ → List ℤ
  | 0, _ => []
  | n + 1, currentRow => currentRow :: stepWalk rows step n (bounce rows (currentRow + step))

/-- The cycling pattern number `i` of `generateStepPatterns()`. -/
def cyclePattern (reels rows i : ℕ) : List ℤ :=
  (List.range reels).map (fun (j : ℕ) => Int.tmod ((j : ℤ) + (i : ℤ)) (rows : ℤ))

/-- `generateStepPatterns()`. -/
def generateStepPatterns (reels rows : ℕ) : List (List ℤ) :=
  let walks := (List.range rows).foldl (fun lines (startRow : ℕ) =>
    [-1, 0, 1].foldl (fun lines (step : ℤ) =>
      if step = 0 then lines
      else pushIfNew lines (stepWalk rows step reels (startRow : ℤ))) lines) []
  let lines := (List.range 5).foldl (fun lines (i : ℕ) =>
    pushIfNew lines (cyclePattern reels rows i)) walks
  lines.take 20

/-- The inner loop of `generateRandomPatterns()` over the remaining reels; `k`
is the number of the next random draw. -/
def randomWalk (rows : ℕ) (rnd : ℕ → ℚ) : ℕ → ℕ → ℤ → List ℤ
  | 0, _, _ => []
  | n + 1, k, prevRow =>
    let change : ℤ := ⌊rnd k * 3⌋ - 1
    let newRow : ℤ := max 0 (min ((rows : ℤ) - 1) (prevRow + change))
    newRow :: randomWalk rows rnd n (k + 1) newRow

/-- The pattern built by one pass of the `while` loop of
`generateRandomPatterns()`, whose first random draw has number `k`. -/
def randomPattern (reels rows : ℕ) (rnd : ℕ → ℚ) (k : ℕ) : List ℤ :=
  randomWalk rows rnd reels (k + 1) ⌊rnd k * (rows : ℚ)⌋

/-- The `while` loop of `generateRandomPatterns(count)`. The first argument is
`maxAttempts - attempts`, so that `attempts < maxAttempts` holds exactly when
it is not zero; every pass consumes `reels + 1` random draws. -/
def randomLoop (reels rows count : ℕ) (rnd : ℕ → ℚ) :
    ℕ → ℕ → List (List ℤ) → List (List ℤ)
  | 0, _, lines => lines
  | remaining + 1, attempts, lines =>
    if lines.length < count then
      randomLoop reels rows count rnd remaining (attempts + 1)
        (pushIfNew lines (randomPattern reels rows rnd (attempts * (reels + 1))))
    else lines

/-- `generateRandomPatterns(count)`. -/
def generateRandomPatterns (reels rows : ℕ) (rnd : ℕ → ℚ) (count : ℕ) : List (List ℤ) :=
  randomLoop reels rows count rnd (count * 10) 0 []

/-- `generateAll()`. -/
def generateAll (reels rows : ℕ) (wave : ℕ → ℕ → ℚ) (rnd : ℕ → ℚ) : List (List ℤ) :=
  generateHorizontal reels rows ++ generateDiagonals reels rows ++ generateVShapes rows
    ++ generateWavePatterns reels rows wave ++ generateStepPatterns reels rows
    ++ generateRandomPatterns reels rows rnd 40

/-- `getPaylines(count)`; every call runs `generateAll()` anew, with its own
random draws `rnd`. -/
def getPaylines (reels rows : ℕ) (wave : ℕ → ℕ → ℚ) (rnd : ℕ → ℚ) (count : ℕ) :
    List (List ℤ) :=
  (generateAll reels rows wave rnd).take count

/-- The values of `sin(k * π / 4)` for `k = 0, …, 7`, to 15 decimal places.
The doubles `Math.sin(k * Math.PI / 4)` lie within `1e-15` of them, which
changes none of the floors that `generateWavePatterns` takes of them. -/
def sinQuarterTurns : ℕ → ℚ
  | 0 => 0
  | 1 => 707106781186548 / 1000000000000000
  | 2 => 1
  | 3 => 707106781186548 / 1000000000000000
  | 4 => 0
  | 5 => -707106781186548 / 1000000000000000
  | 6 => -1
  | _ => -707106781186548 / 1000000000000000

/-- The wave values of the configured 5-reel generator:
`Math.sin((i * freq * Math.PI) / 4)`. -/
def wave5 (i freq : ℕ) : ℚ :=
  sinQuarterTurns ((i * freq) % 8)

/-- A random source whose every draw is 0. -/
def rndZero : ℕ → ℚ :=
  fun _ => 0

/-! ### Tier selection as the specification words it -/

/-- The tier selection `getTier(n)` of the specification: the first `n`
entries of the catalog, and a failure (`none`, the error `InvalidTierSize`)
when `n` exceeds the catalog length. -/
def getTier (catalog : List (List ℤ)) (n : ℕ) : Option (List (List ℤ)) :=
  if n ≤ catalog.length then some (catalog.take n) else none

/-! ## WeightedRandom (`src/math/GameMath.js`) -/

/-- The fields of a `WeightedRandom` object. -/
structure WeightedRandom (σ : Type) where
  items : List σ
  weights : List ℚ
  totalWeight : ℚ
deriving DecidableEq, Repr

/-- The constructor `new WeightedRandom(items, weights)`; the total is
`weights.reduce((a, b) => a + b, 0)`. -/
def WeightedRandom.create {σ : Type} (items : List σ) (weights : List ℚ) : WeightedRandom σ :=
  { items := items, weights := weights, totalWeight := weights.foldl (fun a b => a + b) 0 }

/-- The construction as the specification words it: it fails (`none`, the
error `InvalidConfig`) when the two arrays differ in length or the total
weight is not positive. -/
def WeightedRandom.createChecked {σ : Type} (items : List σ) (weights : List ℚ) :
    Option (WeightedRandom σ) :=
  if items.length = weights.length ∧ 0 < weights.sum then
    some { items := items, weights := weights, totalWeight := weights.sum }
  else none

/-- The integer nearest to `q`, a tie going to the even neighbour. -/
def roundHalfEven (q : ℚ) : ℤ :=
  if q - (⌊q⌋ : ℚ) < 1 / 2 then ⌊q⌋
  else if 1 / 2 < q - (⌊q⌋ : ℚ) then ⌊q⌋ + 1
  else if ⌊q⌋ % 2 = 0 then ⌊q⌋
  else ⌊q⌋ + 1

/-- The double nearest to the rational `x` (53 significant bits, round to
nearest, ties to even): the value an arithmetic operation on doubles returns
when its exact result is `x`. Overflow and subnormal results are not
modelled. -/
def toDouble (x : ℚ) : ℚ :=
  if x = 0 then 0
  else (roundHalfEven (x / 2 ^ (Int.log 2 |x| - 52)) : ℚ) * 2 ^ (Int.log 2 |x| - 52)

/-- The `for` loop of `pick()`, entered at index `i` with the remaining draw
`r`; the first argument is `items.length - i`. The result is the index at
which the loop returns, or `none` when the loop runs to its end. The
statement `r -= this.weights[i]` is a subtraction of doubles, so its result is
rounded. A missing weight (`weights[i]` is `undefined`) makes the comparison
false and turns `r` into `NaN`, written `none`, after which every comparison
is false. -/
def pickLoop (weights : List ℚ) : ℕ → ℕ → Option ℚ → Option ℕ
  | 0, _, _ => none
  | n + 1, i, r =>
    match r, weights[i]? with
    | some r, some w =>
      if r < w then some i else pickLoop weights n (i + 1) (some (toDouble (r - w)))
    | _, _ => pickLoop weights n (i + 1) none

/-- The scan as the specification words it, in exact arithmetic: iterate the
items, return the first whose weight exceeds the remaining `r`, else subtract
the weight from `r`. -/
def pickLoopExact (weights : List ℚ) : ℕ → ℕ → Option ℚ → Option ℕ
  | 0, _, _ => none
  | n + 1, i, r =>
    match r, weights[i]? with
    | some r, some w => if r < w then some i else pickLoopExact weights n (i + 1) (some (r - w))
    | _, _ => pickLoopExact weights n (i + 1) none

/-- The body of `pick()` after the draw `r = Math.random() * totalWeight`:
the item at the index where the loop returns, or the fallback
`items[items.length - 1]`. -/
def WeightedRandom.pickAt {σ : Type} (s : WeightedRandom σ) (r : ℚ) : Option σ :=
  match pickLoop s.weights s.items.length 0 (some r) with
  | some i => s.items[i]?
  | none => jsIndex s.items ((s.items.length : ℤ) - 1)

/-- `pick()`, with the value of `Math.random()` as `random`; the product
`Math.random() * this.totalWeight` is a product of doubles. -/
def WeightedRandom.pick {σ : Type} (s : WeightedRandom σ) (random : ℚ) : Option σ :=
  s.pickAt (toDouble (random * s.totalWeight))

/-- The weights `[0.1, 0.2, 0.3]` as doubles. -/
def exampleWeights3 : List ℚ :=
  [toDouble (1 / 10), toDouble (2 / 10), toDouble (3 / 10)]

/-- The weights `[0.1, 0.2, 0.3, 0.4]` as doubles. -/
def exampleWeights4 : List ℚ :=
  [toDouble (1 / 10), toDouble (2 / 10), toDouble (3 / 10), toDouble (4 / 10)]

/-- The draw `r = 0.6` as a double. -/
def exampleDraw : ℚ :=
  toDouble (6 / 10)

/-- The sampler `new WeightedRandom(['A','B','C'], [0.1, 0.2, 0.3])` with the
total as `weights.reduce((a, b) => a + b, 0)` computes it in doubles,
`0.6000000000000001`. -/
def exampleSampler : WeightedRandom Char :=
  { items := ['A', 'B', 'C']
    weights := exampleWeights3
    totalWeight := exampleWeights3.foldl (fun a b => toDouble (a + b)) 0 }

/-- The sampler `new WeightedRandom(['A','B','C','D'], [0.1, 0.2, 0.3, 0.4])`
with the total as the `reduce` computes it in doubles, `1`. -/
def exampleSampler4 : WeightedRandom Char :=
  { items := ['A', 'B', 'C', 'D']
    weights := exampleWeights4
    totalWeight := exampleWeights4.foldl (fun a b => toDouble (a + b)) 0 }

/-! ## Game (`src/core/Game.js`): the spin command -/

/-- The part of the `Game` state that `spin()` reads and writes. The reels are
the `config.reels` reels built by `buildScene`, `rows` is `config.rows`. -/
structure Game (σ : Type) where
  spinning : Bool
  balance : ℚ
  lines : ℚ
  betPerLine : ℚ
  lastWin : ℚ
  rows : ℕ
  results : List (List σ)
  reels : List (Reel σ)

/-- `getTotalBet()`: `Math.round(lines * betPerLine * 100) / 100`. -/
def Game.getTotalBet {σ : Type} (g : Game σ) : ℚ :=
  (⌊g.lines * g.betPerLine * 100 + 1 / 2⌋ : ℚ) / 100

/-- `spin()`. `pick i r` is the symbol `generator.pick()` returns for row `r`
of reel `i`, so that `results[index]` is the column of the values
`pick index r`; `now index` is the value of `Date.now()` read by the call made
on reel `index`. The loop over `config.reels` runs over the reels of the game.
The changes to the page and to the overlays are left out. -/
def Game.spin {σ : Type} (g : Game σ) (pick : ℕ → ℕ → σ) (now : ℕ → ℚ) : Game σ :=
  if g.spinning = false then
    if g.balance < g.getTotalBet then g
    else
      { g with
        spinning := true
        balance := g.balance - g.getTotalBet
        lastWin := 0
        results := (List.range g.reels.length).map (fun (i : ℕ) =>
          (List.range g.rows).map (fun (r : ℕ) => pick i r))
        reels := g.reels.mapIdx (fun index reel =>
          startSpin reel ((List.range g.rows).map (fun (r : ℕ) => pick index r)) (now index)) }
  else
    { g with reels := g.reels.mapIdx (fun index reel => stopImmediately reel (now index)) }

/-- A losing line in the words of the specification: the table has no entry
for `symbols[0]`, or it has one but none for the length of the run of symbols
equal to `symbols[0]` at the start of the (non-empty) line. -/
def losingLine {σ : Type} [DecidableEq σ] (payouts : PayoutTable σ)
    (symbols : List (Option σ)) : Prop :=
  payouts symbols.head?.join = none
    ∨ (symbols ≠ [] ∧ ∃ payout, payouts symbols.head?.join = some payout
        ∧ payout (symbols.takeWhile (fun s => decide (s = symbols.head?.join))).length = none)

/-- A game in the middle of a spin: its button was pressed with a balance of
1000 and 20 lines at a bet of 1, and its first reel is `exampleSpinning`. -/
def exampleGame : Game Char :=
  { spinning := true, balance := 980, lines := 20, betPerLine := 1, lastWin := 0, rows := 4,
    results := [['B', 'A', 'A', 'A']], reels := [exampleSpinning] }

/-! ## Theorems: WinCalculator -/

theorem countLoop_eq_takeWhile {σ : Type} [DecidableEq σ] (first : Option σ)
    (l : List (Option σ)) (c : ℕ) :
    countLoop first l c = c + (l.takeWhile (fun s => decide (s = first))).length := by
  induction l generalizing c with
  | nil => simp [countLoop]
  | cons s rest ih =>
    by_cases h : s = first
    · simp [countLoop, h, ih, List.takeWhile_cons]; omega
    · simp [countLoop, h, List.takeWhile_cons]

/-- The run length the code uses, for a non-empty line, is the length of the
maximal prefix of symbols equal to the first one. -/
theorem countLoop_line {σ : Type} [DecidableEq σ] (symbols : List (Option σ))
    (hne : symbols ≠ []) :
    countLoop symbols.head?.join symbols.tail 1
      = (symbols.takeWhile (fun s => decide (s = symbols.head?.join))).length := by
  cases symbols with
  | nil => exact absurd rfl hne
  | cons a rest =>
    simp [countLoop_eq_takeWhile, List.takeWhile_cons]
    omega

/-- C1: for a non-empty line whose maximal prefix of symbols equal to
`symbols[0]` has length `c`, if `payouts[symbols[0]][c]` is present with a
positive multiplier `m`, then `calculateLineWin` returns amount
`m * betPerLine` and count `c`. -/
theorem calculateLineWin_pays {σ : Type} [DecidableEq σ] (symbols : List (Option σ))
    (payouts : PayoutTable σ) (betPerLine : ℚ) (payout : ℕ → Option ℚ) (m : ℚ)
    (hne : symbols ≠ [])
    (hpayout : payouts symbols.head?.join = some payout)
    (hm : payout (symbols.takeWhile (fun s => decide (s = symbols.head?.join))).length = some m)
    (hpos : 0 < m) :
    calculateLineWin symbols payouts betPerLine
      = { amount := m * betPerLine
          count := (symbols.takeWhile (fun s => decide (s = symbols.head?.join))).length } := by
  have hm0 : m ≠ 0 := ne_of_gt hpos
  simp only [calculateLineWin, hpayout, countLoop_line symbols hne, hm]
  simp [hm0]

/-- Witness for C1: the line `[S,S,S,X,Y]` with the table `S → {3: 30}` and a
bet of 1 pays 30 with count 3. -/
theorem calculateLineWin_pays_witness :
    calculateLineWin [some 'S', some 'S', some 'S', some 'X', some 'Y']
        (fun s => if s = some 'S' then some (fun c => if c = 3 then some 30 else none) else none) 1
      = { amount := 30 * 1, count := 3 } :=
  calculateLineWin_pays [some 'S', some 'S', some 'S', some 'X', some 'Y']
    (fun s => if s = some 'S' then some (fun c => if c = 3 then some 30 else none) else none) 1
    (fun c => if c = 3 then some 30 else none) 30
    (by simp) (by simp) (by simp [List.takeWhile]) (by norm_num)

theorem countLoop_replicate_append {σ : Type} [DecidableEq σ] (s t : Option σ) (ht : t ≠ s)
    (n c : ℕ) (rest : List (Option σ)) :
    countLoop s (List.replicate n s ++ t :: rest) c = c + n := by
  induction n generalizing c with
  | zero => simp [countLoop, ht]
  | succ n ih => simp [List.replicate_succ, countLoop, ih]; omega

theorem countLoop_replicate {σ : Type} [DecidableEq σ] (s : Option σ) (n c : ℕ) :
    countLoop s (List.replicate n s) c = c + n := by
  induction n generalizing c with
  | zero => simp [countLoop]
  | succ n ih => simp [List.replicate_succ, countLoop, ih]; omega

/-- The result of `calculateLineWin` on a line that starts with `k ≥ 1` copies
of `s` followed by a different symbol, as a function of `s` and `k` alone. -/
theorem calculateLineWin_run {σ : Type} [DecidableEq σ] (s t : Option σ) (k : ℕ)
    (rest : List (Option σ)) (payouts : PayoutTable σ) (betPerLine : ℚ)
    (hk : 1 ≤ k) (ht : t ≠ s) :
    calculateLineWin (List.replicate k s ++ t :: rest) payouts betPerLine
      = calculateLineWin (List.replicate k s) payouts betPerLine := by
  obtain ⟨n, rfl⟩ : ∃ n, k = n + 1 := ⟨k - 1, by omega⟩
  simp only [calculateLineWin, List.replicate_succ, List.cons_append, List.head?_cons,
    List.tail_cons, Option.join, Option.some_bind, id, countLoop_replicate_append s t ht,
    countLoop_replicate]

/-- C2: when position `k ≥ 1` holds the first symbol `t` that differs from
`symbols[0] = s`, the result of `calculateLineWin` does not depend on the
symbols after position `k` (it is the result for the bare run of `k` copies of
`s`), and it has amount 0 when the table has no entry for a run of `k`, as for
`[S,T,S,S,S]` and a table without an entry for a run of 1. -/
theorem calculateLineWin_prefix_only {σ : Type} [DecidableEq σ] (s t : Option σ) (k : ℕ)
    (rest rest' : List (Option σ)) (payouts : PayoutTable σ) (betPerLine : ℚ)
    (hk : 1 ≤ k) (ht : t ≠ s) :
    calculateLineWin (List.replicate k s ++ t :: rest) payouts betPerLine
        = calculateLineWin (List.replicate k s ++ t :: rest') payouts betPerLine
      ∧ calculateLineWin (List.replicate k s ++ t :: rest) payouts betPerLine
        = calculateLineWin (List.replicate k s) payouts betPerLine
      ∧ ((∀ payout, payouts s = some payout → payout k = none) →
          (calculateLineWin (List.replicate k s ++ t :: rest) payouts betPerLine).amount = 0) := by
  refine ⟨?_, calculateLineWin_run s t k rest payouts betPerLine hk ht, ?_⟩
  · rw [calculateLineWin_run s t k rest payouts betPerLine hk ht,
      calculateLineWin_run s t k rest' payouts betPerLine hk ht]
  · intro hno
    rw [calculateLineWin_run s t k rest payouts betPerLine hk ht]
    obtain ⟨n, rfl⟩ : ∃ n, k = n + 1 := ⟨k - 1, by omega⟩
    simp only [calculateLineWin, List.replicate_succ, List.head?_cons, List.tail_cons,
      Option.join, Option.some_bind, id, countLoop_replicate]
    cases hp : payouts s with
    | none => rfl
    | some payout =>
      have := hno payout hp
      simp only [Nat.add_comm 1 n, this]

/-- Witness for C2: the line `[S,T,S,S,S]` (`k = 1`) against the table
`S → {3: 30}`, which has no entry for a run of 1. -/
theorem calculateLineWin_prefix_only_witness :
    (calculateLineWin [some 'S', some 'T', some 'S', some 'S', some 'S']
        (fun s => if s = some 'S' then some (fun c => if c = 3 then some 30 else none) else none)
        1).amount = 0 :=
  (calculateLineWin_prefix_only (some 'S') (some 'T') 1 [some 'S', some 'S', some 'S'] []
    (fun s => if s = some 'S' then some (fun c => if c = 3 then some 30 else none) else none) 1
    (le_refl 1) (by decide)).2.2 (by intro payout h; simp at h; subst h; simp)

theorem lineSymbolsLoop_eq {σ : Type} (results : List (List σ)) (payline : List ℤ)
    (reel : ℕ) (symbols : List (Option σ)) (h : reel + payline.length ≤ results.length) :
    lineSymbolsLoop results reel payline symbols
      = some (symbols ++ (payline.enumFrom reel).map
          (fun p => (results[p.1]?).bind (fun column => jsIndex column p.2))) := by
  induction payline generalizing reel symbols with
  | nil => simp [lineSymbolsLoop]
  | cons row rest ih =>
    have hlt : reel < results.length := by simp at h; omega
    have hrest : reel + 1 + rest.length ≤ results.length := by simp at h; omega
    simp [lineSymbolsLoop, List.getElem?_eq_getElem hlt, ih (reel + 1) _ hrest, List.enumFrom_cons]

theorem lineSymbolsLoop_paylineSymbols {σ : Type} (results : List (List σ)) (payline : List ℤ)
    (h : payline.length ≤ results.length) :
    lineSymbolsLoop results 0 payline [] = some (paylineSymbols results payline) := by
  rw [lineSymbolsLoop_eq results payline 0 [] (by omega)]
  simp [paylineSymbols, List.enum]

theorem paylineLoop_eq {σ : Type} [DecidableEq σ] (results : List (List σ))
    (payouts : PayoutTable σ) (betPerLine : ℚ) (paylines : List (List ℤ))
    (h : ∀ payline ∈ paylines, payline.length ≤ results.length)
    (lineIndex : ℕ) (acc : PaylineWins σ) :
    paylineLoop results payouts betPerLine lineIndex paylines acc
      = some
        { totalWin := acc.totalWin +
            (((paylines.enumFrom lineIndex).filterMap
              (winningLineAt results payouts betPerLine)).map (fun w => w.amount)).sum
          winningLines := acc.winningLines ++
            (paylines.enumFrom lineIndex).filterMap (winningLineAt results payouts betPerLine) } := by
  induction paylines generalizing lineIndex acc with
  | nil => simp [paylineLoop]
  | cons payline rest ih =>
    have hp : payline.length ≤ results.length := h payline (List.mem_cons_self _ _)
    have hrest : ∀ q ∈ rest, q.length ≤ results.length :=
      fun q hq => h q (List.mem_cons_of_mem _ hq)
    simp only [paylineLoop, paylineStep, lineSymbolsLoop_paylineSymbols results payline hp,
      List.enumFrom_cons]
    by_cases hw : (calculateLineWin (paylineSymbols results payline) payouts betPerLine).amount > 0
    · simp [hw, ih hrest, winningLineAt, List.filterMap_cons, add_assoc]
    · simp [hw, ih hrest, winningLineAt, List.filterMap_cons]

/-- C3: when no payline is longer than the grid has reels,
`calculatePaylineWins` returns a result whose `winningLines` are exactly the
paylines with a positive line win on the symbols `grid[r][payline[r]]`, in
list order and labelled with their position plus one, and whose `totalWin` is
the sum of the amounts of these winning lines. -/
theorem calculatePaylineWins_spec {σ : Type} [DecidableEq σ] (results : List (List σ))
    (paylines : List (List ℤ)) (payouts : PayoutTable σ) (betPerLine : ℚ)
    (h : ∀ payline ∈ paylines, payline.length ≤ results.length) :
    ∃ res, calculatePaylineWins results paylines payouts betPerLine = some res
      ∧ res.winningLines = expectedWinningLines results paylines payouts betPerLine
      ∧ res.totalWin = (res.winningLines.map (fun w => w.amount)).sum := by
  refine ⟨_, paylineLoop_eq results payouts betPerLine paylines h 0 _, ?_, ?_⟩
  · simp [expectedWinningLines, List.enum]
  · simp

/-- Witness for C3: a 5 × 1 grid `[S,S,S,X,Y]`, the payline `[0,0,0,0,0]`, the
table `S → {3: 30}` and a bet of 1. -/
theorem calculatePaylineWins_spec_witness :
    ∃ res, calculatePaylineWins [['S'], ['S'], ['S'], ['X'], ['Y']] [[0, 0, 0, 0, 0]]
        (fun s => if s = some 'S' then some (fun c => if c = 3 then some 30 else none) else none) 1
        = some res
      ∧ res.winningLines = expectedWinningLines [['S'], ['S'], ['S'], ['X'], ['Y']]
          [[0, 0, 0, 0, 0]]
          (fun s => if s = some 'S' then some (fun c => if c = 3 then some 30 else none) else none) 1
      ∧ res.totalWin = (res.winningLines.map (fun w => w.amount)).sum :=
  calculatePaylineWins_spec [['S'], ['S'], ['S'], ['X'], ['Y']] [[0, 0, 0, 0, 0]]
    (fun s => if s = some 'S' then some (fun c => if c = 3 then some 30 else none) else none) 1
    (by simp)

/-! ## Theorems: Reel -/

theorem finalizeStop_eq {σ : Type} (r : Reel σ) (hstrip : r.config.rows ≤ r.symbols.length) :
    finalizeStop r = some
      { r with
        symbols := r.symbols.mapIdx (fun i symbol =>
          { value := if i < r.config.rows then r.targetSymbols[i]? else symbol.value
            y := (i : ℚ) * (r.config.symbolSize + r.config.symbolPadding) })
        spinning := false
        stopping := false } := by
  have hnot : ¬ r.symbols.length < r.config.rows := by omega
  simp only [finalizeStop, hnot, if_false]
  congr 2
  apply List.ext_getElem?
  intro i
  simp only [List.getElem?_mapIdx, Option.map_map]
  cases r.symbols[i]? with
  | none => rfl
  | some symbol => by_cases hi : i < r.config.rows <;> simp [hi]

/-- C4: for a reel whose `targetSymbols` has at least `rows` entries (its strip,
as `createStrip` builds it, being at least `rows` long), `finalizeStop` returns
a state whose visible column is `targetSymbols[0..rows)`, whose strip symbol
`i` sits at `i * (symbolSize + symbolPadding)`, and in which `spinning` and
`stopping` are both false. -/
theorem finalizeStop_visible {σ : Type} (r : Reel σ)
    (htargets : r.config.rows ≤ r.targetSymbols.length)
    (hstrip : r.config.rows ≤ r.symbols.length) :
    ∃ r', finalizeStop r = some r'
      ∧ getVisibleSymbols r' = (r.targetSymbols.take r.config.rows).map some
      ∧ r'.symbols.length = r.symbols.length
      ∧ (∀ i (h : i < r'.symbols.length),
          (r'.symbols.get ⟨i, h⟩).y = (i : ℚ) * (r.config.symbolSize + r.config.symbolPadding))
      ∧ r'.spinning = false ∧ r'.stopping = false := by
  refine ⟨_, finalizeStop_eq r hstrip, ?_, by simp, ?_, rfl, rfl⟩
  · apply List.ext_getElem?
    intro i
    simp only [getVisibleSymbols, List.getElem?_map, List.getElem?_take, List.getElem?_mapIdx]
    by_cases hi : i < r.config.rows
    · have h1 : i < r.symbols.length := by omega
      have h2 : i < r.targetSymbols.length := by omega
      simp [hi, List.getElem?_eq_getElem h1, List.getElem?_eq_getElem h2]
    · simp [hi]
  · intro i h
    simp [List.getElem_mapIdx]

/-- Witness for C4: a freshly built 4-row reel (strip of 12 symbols `A`) with
the target column `[B, C, D, E]`. -/
theorem finalizeStop_visible_witness :
    ∃ r', finalizeStop
        { Reel.create 0 { rows := 4, symbolSize := 140, symbolPadding := 24, spinDuration := 1250 }
            (fun _ => some 'A') with targetSymbols := ['B', 'C', 'D', 'E'] } = some r'
      ∧ getVisibleSymbols r' = [some 'B', some 'C', some 'D', some 'E']
      ∧ r'.symbols.length = 12
      ∧ (∀ i (h : i < r'.symbols.length), (r'.symbols.get ⟨i, h⟩).y = (i : ℚ) * (140 + 24))
      ∧ r'.spinning = false ∧ r'.stopping = false :=
  finalizeStop_visible
    { Reel.create 0 { rows := 4, symbolSize := 140, symbolPadding := 24, spinDuration := 1250 }
        (fun _ => some 'A') with targetSymbols := ['B', 'C', 'D', 'E'] }
    (by decide) (by decide)

theorem targetAtMod_of_lt {σ : Type} (targetSymbols : List σ) (rows i : ℕ) (hi : i < rows) :
    targetAtMod targetSymbols rows i = targetSymbols[i]? := by
  have h0 : rows ≠ 0 := by omega
  simp [targetAtMod, h0, Nat.mod_eq_of_lt hi]

theorem carriesTargets_iff {σ : Type} (r : Reel σ) :
    carriesTargets r ↔
      ∀ i symbol, r.symbols[i]? = some symbol →
        symbol.value = targetAtMod r.targetSymbols r.config.rows i := by
  constructor
  · intro h i symbol hs
    obtain ⟨hi, rfl⟩ := List.getElem?_eq_some.mp hs
    exact h i hi
  · intro h i hi
    exact h i _ (List.getElem?_eq_getElem hi)

theorem carriesTargets_of_stripValues {σ : Type} (r r' : Reel σ)
    (hv : stripValues r' = stripValues r) (ht : r'.targetSymbols = r.targetSymbols)
    (hc : r'.config = r.config) (h : carriesTargets r) : carriesTargets r' := by
  rw [carriesTargets_iff] at h ⊢
  intro i symbol hs
  have h1 : (stripValues r')[i]? = some symbol.value := by simp [stripValues, hs]
  rw [hv] at h1
  simp only [stripValues, List.getElem?_map, Option.map_eq_some'] at h1
  obtain ⟨s0, hs0, hval⟩ := h1
  rw [ht, hc, ← hval]
  exact h i s0 hs0

theorem carriesTargets_load {σ : Type} (r : Reel σ) :
    carriesTargets (loadTargetSymbolsSmooth r) := by
  rw [carriesTargets_iff]
  intro i symbol hs
  simp only [loadTargetSymbolsSmooth, List.getElem?_mapIdx, Option.map_eq_some'] at hs
  obtain ⟨s0, _, rfl⟩ := hs
  by_cases hi : i < r.config.rows
  · simp [loadTargetSymbolsSmooth, hi, targetAtMod_of_lt]
  · simp [loadTargetSymbolsSmooth, hi]

theorem stripValues_moveAndWrap {σ : Type} (r : Reel σ) (elapsed loadTargetsAt : ℚ)
    (pick : ℕ → Option σ) (hloaded : r.targetsLoaded = true) (h : carriesTargets r) :
    stripValues (moveAndWrap r elapsed loadTargetsAt pick) = stripValues r := by
  rw [carriesTargets_iff] at h
  apply List.ext_getElem?
  intro i
  simp only [stripValues, moveAndWrap, List.getElem?_map, List.getElem?_mapIdx, Option.map_map]
  cases hs : r.symbols[i]? with
  | none => rfl
  | some symbol =>
    have hval := h i symbol hs
    simp only [Option.map_some', Function.comp_apply, wrapSymbol, hloaded, true_and]
    by_cases hw : symbol.y + r.currentSpeed ≥
        (r.symbols.length : ℚ) * (r.config.symbolSize + r.config.symbolPadding)
    · by_cases hi : i < r.config.rows
      · simp [hw, hi, hval, targetAtMod_of_lt]
      · simp [hw, hi]
    · simp [hw]

theorem stripValues_finalizeStop {σ : Type} (r : Reel σ)
    (hstrip : r.config.rows ≤ r.symbols.length) (h : carriesTargets r) :
    ∃ r', finalizeStop r = some r' ∧ stripValues r' = stripValues r
      ∧ r'.targetsLoaded = r.targetsLoaded ∧ r'.targetSymbols = r.targetSymbols
      ∧ r'.config = r.config ∧ r'.symbols.length = r.symbols.length := by
  refine ⟨_, finalizeStop_eq r hstrip, ?_, rfl, rfl, rfl, by simp⟩
  rw [carriesTargets_iff] at h
  apply List.ext_getElem?
  intro i
  simp only [stripValues, List.getElem?_map, List.getElem?_mapIdx, Option.map_map]
  cases hs : r.symbols[i]? with
  | none => rfl
  | some symbol =>
    have hval := h i symbol hs
    by_cases hi : i < r.config.rows
    · simp [hi, hval, targetAtMod_of_lt]
    · simp [hi]

theorem enterSlowdown_loaded {σ : Type} (r : Reel σ) (now : ℚ)
    (hloaded : r.targetsLoaded = true) :
    (enterSlowdown r now).symbols = r.symbols
      ∧ (enterSlowdown r now).targetsLoaded = true
      ∧ (enterSlowdown r now).targetSymbols = r.targetSymbols
      ∧ (enterSlowdown r now).config = r.config := by
  unfold enterSlowdown
  by_cases hs : r.stopping = false
  · simp [hs, hloaded]
  · simp [hs, hloaded]

theorem slowdown_loaded {σ : Type} (r : Reel σ) (tk : Tick σ)
    (hstrip : r.config.rows ≤ r.symbols.length)
    (hloaded : r.targetsLoaded = true) (h : carriesTargets r) :
    ∃ r', slowdown r tk = some r' ∧ stripValues r' = stripValues r
      ∧ r'.targetsLoaded = true ∧ r'.targetSymbols = r.targetSymbols
      ∧ r'.config = r.config ∧ r'.symbols.length = r.symbols.length := by
  obtain ⟨hes, hel, het, hec⟩ := enterSlowdown_loaded r tk.nowSlowdown hloaded
  unfold slowdown
  generalize enterSlowdown r tk.nowSlowdown = r3 at hes hel het hec
  simp only []
  generalize r3.spinSpeed *
    (1 - (1 - (1 - min ((tk.nowEase - r3.slowdownStartTime) / 1000) 1) ^ 4)) = speed
  by_cases hfin : speed < 3 / 10
  · rw [if_pos hfin]
    have hc3 : carriesTargets { r3 with currentSpeed := speed } := by
      apply carriesTargets_of_stripValues r _ _ het hec h
      simp only [stripValues, hes]
    obtain ⟨r', hr', hv', hl', ht', hc', hlen'⟩ :=
      stripValues_finalizeStop { r3 with currentSpeed := speed }
        (by simp only [hes, hec]; exact hstrip) hc3
    refine ⟨r', hr', ?_, ?_, ?_, ?_, ?_⟩
    · rw [hv']; simp only [stripValues, hes]
    · rw [hl']; exact hel
    · rw [ht']; exact het
    · rw [hc']; exact hec
    · rw [hlen']; simp only [hes]
  · rw [if_neg hfin]
    refine ⟨_, rfl, ?_, hel, het, hec, ?_⟩
    · simp only [stripValues, hes]
    · simp only [hes]

/-- Once the targets are loaded and the strip carries them, one `update()`
returns a state with the same strip values, targets and configuration, and
`targetsLoaded` still true. -/
theorem update_loaded {σ : Type} (r : Reel σ) (tk : Tick σ)
    (hstrip : r.config.rows ≤ r.symbols.length)
    (hloaded : r.targetsLoaded = true) (h : carriesTargets r) :
    ∃ r', update r tk = some r' ∧ stripValues r' = stripValues r
      ∧ r'.targetsLoaded = true ∧ r'.targetSymbols = r.targetSymbols
      ∧ r'.config = r.config ∧ r'.symbols.length = r.symbols.length := by
  unfold update
  by_cases hspin : r.spinning = false
  · rw [if_pos hspin]
    exact ⟨r, rfl, rfl, hloaded, rfl, rfl, rfl⟩
  · rw [if_neg hspin]
    simp only []
    generalize tk.now - r.spinStartTime = elapsed
    generalize (r.config.spinDuration + (r.index : ℚ) * 200) = slowAt
    generalize slowAt * (4 / 10 - (r.index : ℚ) * (2 / 100)) = loadAt
    have hv1 := stripValues_moveAndWrap r elapsed loadAt tk.pick hloaded h
    have hl1 : (moveAndWrap r elapsed loadAt tk.pick).targetsLoaded = true := hloaded
    have hp : preload (moveAndWrap r elapsed loadAt tk.pick) elapsed loadAt
        = moveAndWrap r elapsed loadAt tk.pick := by
      simp [preload, hl1]
    rw [hp]
    have hlen1 : (moveAndWrap r elapsed loadAt tk.pick).symbols.length = r.symbols.length := by
      simp [moveAndWrap]
    by_cases hslow : (moveAndWrap r elapsed loadAt tk.pick).stopping = true ∨ elapsed > slowAt
    · rw [if_pos hslow]
      have hc1 : carriesTargets (moveAndWrap r elapsed loadAt tk.pick) :=
        carriesTargets_of_stripValues r _ hv1 rfl rfl h
      obtain ⟨r', hr', hv', hl', ht', hc', hlen'⟩ :=
        slowdown_loaded (moveAndWrap r elapsed loadAt tk.pick) tk
          (by rw [hlen1]; exact hstrip) hl1 hc1
      exact ⟨r', hr', hv'.trans hv1, hl', ht', hc', hlen'.trans hlen1⟩
    · rw [if_neg hslow]
      exact ⟨_, rfl, hv1, hl1, rfl, rfl, hlen1⟩

/-- C5: immediately after `loadTargetSymbolsSmooth` every strip index `i`
holds `targetSymbols[i mod rows]`; and from a state in which `targetsLoaded`
is true and the strip carries the targets, every `update()` (whatever the
clock and the random picks) and `finalizeStop` return a state whose strip
still carries the targets, with every value equal to the one carried before. -/
theorem preload_keeps_targets {σ : Type} (r : Reel σ) (tk : Tick σ)
    (hstrip : r.config.rows ≤ r.symbols.length) :
    carriesTargets (loadTargetSymbolsSmooth r)
      ∧ (r.targetsLoaded = true → carriesTargets r →
          ∃ r', update r tk = some r' ∧ carriesTargets r' ∧ r'.targetsLoaded = true
            ∧ stripValues r' = stripValues r)
      ∧ (carriesTargets r →
          ∃ r', finalizeStop r = some r' ∧ carriesTargets r'
            ∧ stripValues r' = stripValues r) := by
  refine ⟨carriesTargets_load r, ?_, ?_⟩
  · intro hloaded h
    obtain ⟨r', hr', hv, hl, ht, hc, _⟩ := update_loaded r tk hstrip hloaded h
    exact ⟨r', hr', carriesTargets_of_stripValues r r' hv ht hc h, hl, hv⟩
  · intro h
    obtain ⟨r', hr', hv, _, ht, hc, _⟩ := stripValues_finalizeStop r hstrip h
    exact ⟨r', hr', carriesTargets_of_stripValues r r' hv ht hc h, hv⟩

/-- Witness for C5: reel 0 after `startSpin` and the pre-load rewrite; a tick
at time 600 and a finalize both leave the strip on the target sequence. -/
theorem preload_keeps_targets_witness :
    (∃ r', update { loadTargetSymbolsSmooth exampleSpinning with targetsLoaded := true }
          (exampleTick 600) = some r' ∧ carriesTargets r' ∧ r'.targetsLoaded = true
        ∧ stripValues r'
          = stripValues { loadTargetSymbolsSmooth exampleSpinning with targetsLoaded := true })
      ∧ (∃ r', finalizeStop { loadTargetSymbolsSmooth exampleSpinning with targetsLoaded := true }
          = some r' ∧ carriesTargets r'
        ∧ stripValues r'
          = stripValues { loadTargetSymbolsSmooth exampleSpinning with targetsLoaded := true }) :=
  ⟨(preload_keeps_targets { loadTargetSymbolsSmooth exampleSpinning with targetsLoaded := true }
      (exampleTick 600) (by decide)).2.1 rfl (carriesTargets_load exampleSpinning),
   (preload_keeps_targets { loadTargetSymbolsSmooth exampleSpinning with targetsLoaded := true }
      (exampleTick 600) (by decide)).2.2 (carriesTargets_load exampleSpinning)⟩

theorem preload_stopping {σ : Type} (r : Reel σ) (elapsed loadTargetsAt : ℚ) :
    (preload r elapsed loadTargetsAt).stopping = r.stopping := by
  unfold preload
  split_ifs <;> rfl

/-- A tick on a spinning reel that is not stopping and has not reached its
slowdown threshold only moves, wraps and possibly pre-loads. -/
theorem update_before_slowdown {σ : Type} (r : Reel σ) (tk : Tick σ)
    (hspin : r.spinning = true) (hstop : r.stopping = false)
    (hearly : ¬ tk.now - r.spinStartTime > r.config.spinDuration + (r.index : ℚ) * 200) :
    update r tk = some
      (preload
        (moveAndWrap r (tk.now - r.spinStartTime)
          ((r.config.spinDuration + (r.index : ℚ) * 200) * (4 / 10 - (r.index : ℚ) * (2 / 100)))
          tk.pick)
        (tk.now - r.spinStartTime)
        ((r.config.spinDuration + (r.index : ℚ) * 200)
          * (4 / 10 - (r.index : ℚ) * (2 / 100)))) := by
  have hs : ¬ r.spinning = false := by simp [hspin]
  unfold update
  rw [if_neg hs]
  simp only []
  rw [if_neg]
  rw [preload_stopping]
  intro h
  rcases h with h | h
  · rw [show (moveAndWrap r (tk.now - r.spinStartTime)
        ((r.config.spinDuration + (r.index : ℚ) * 200) * (4 / 10 - (r.index : ℚ) * (2 / 100)))
        tk.pick).stopping = r.stopping from rfl, hstop] at h
    exact Bool.noConfusion h
  · exact hearly h

theorem update_exampleSpinning_600 :
    update exampleSpinning (exampleTick 600)
      = some (preload (moveAndWrap exampleSpinning 600 500 (fun _ => some 'A')) 600 500) := by
  have h := update_before_slowdown exampleSpinning (exampleTick 600) rfl rfl
    (by norm_num [exampleSpinning, exampleTick, startSpin, exampleReel, Reel.create,
      exampleConfig])
  rw [h]
  norm_num [exampleSpinning, exampleTick, startSpin, exampleReel, Reel.create, exampleConfig]

/-- C6, counterexample: on reel 0 spinning towards `['B','A','A','A']` since
time 0, the tick at time 600 (past the load threshold `1250 * 0.4 = 500`, before
the slowdown threshold 1250) runs the pre-load rewrite. Strip symbol 0 is
inside the visible window `[0, 4 * 164)` before the tick (at 0) and after it
(at 25); before the tick it shows `A`, a value of the target sequence, and the
rewrite changes it to `B`. -/
theorem preload_changes_visible_symbol :
    exampleSpinning.targetsLoaded = false
      ∧ exampleSpinning.symbols[0]? = some { value := some 'A', y := 0 }
      ∧ 'A' ∈ exampleSpinning.targetSymbols
      ∧ (update exampleSpinning (exampleTick 600)).map (fun r => (r.symbols[0]?, r.targetsLoaded))
          = some (some { value := some 'B', y := 25 }, true)
      ∧ ((0 : ℚ) ≤ 25 ∧ (25 : ℚ) < 4 * (140 + 24)) := by
  refine ⟨rfl, ?_, by decide, ?_, by norm_num⟩
  · norm_num [exampleSpinning, startSpin, exampleReel, Reel.create, List.range_succ_eq_map]
  · rw [update_exampleSpinning_600]
    norm_num [preload, moveAndWrap, loadTargetSymbolsSmooth, wrapSymbol, exampleSpinning,
      startSpin, exampleReel, Reel.create, exampleConfig, List.getElem?_mapIdx,
      List.range_succ_eq_map]

theorem carriesTargets_stripValues {σ : Type} (r : Reel σ) (h : carriesTargets r) :
    stripValues r
      = (List.range r.symbols.length).map (targetAtMod r.targetSymbols r.config.rows) := by
  rw [carriesTargets_iff] at h
  apply List.ext_getElem?
  intro i
  simp only [stripValues, List.getElem?_map, List.getElem?_range']
  by_cases hi : i < r.symbols.length
  · rw [List.getElem?_eq_getElem hi, List.getElem?_range hi]
    simp [h i _ (List.getElem?_eq_getElem hi)]
  · rw [List.getElem?_eq_none (by omega), List.getElem?_eq_none (by simp; omega)]
    rfl

theorem moveAndWrap_inv {σ : Type} (r : Reel σ) (elapsed loadTargetsAt : ℚ)
    (pick : ℕ → Option σ) (h : r.targetsLoaded = true → carriesTargets r) :
    (moveAndWrap r elapsed loadTargetsAt pick).targetsLoaded = true →
      carriesTargets (moveAndWrap r elapsed loadTargetsAt pick) := by
  intro hl
  have hl0 : r.targetsLoaded = true := hl
  exact carriesTargets_of_stripValues r _
    (stripValues_moveAndWrap r elapsed loadTargetsAt pick hl0 (h hl0)) rfl rfl (h hl0)

theorem carriesTargets_load_flag {σ : Type} (r : Reel σ) :
    carriesTargets { loadTargetSymbolsSmooth r with targetsLoaded := true } :=
  carriesTargets_load r

theorem preload_inv {σ : Type} (r : Reel σ) (elapsed loadTargetsAt : ℚ)
    (h : r.targetsLoaded = true → carriesTargets r) :
    (preload r elapsed loadTargetsAt).targetSymbols = r.targetSymbols
      ∧ (preload r elapsed loadTargetsAt).config = r.config
      ∧ (preload r elapsed loadTargetsAt).symbols.length = r.symbols.length
      ∧ ((preload r elapsed loadTargetsAt).targetsLoaded = true →
          carriesTargets (preload r elapsed loadTargetsAt)) := by
  unfold preload
  by_cases hc : r.targetsLoaded = false ∧ elapsed ≥ loadTargetsAt
  · rw [if_pos hc]
    exact ⟨rfl, rfl, by simp [loadTargetSymbolsSmooth], fun _ => carriesTargets_load_flag r⟩
  · rw [if_neg hc]
    exact ⟨rfl, rfl, rfl, h⟩

theorem enterSlowdown_inv {σ : Type} (r : Reel σ) (now : ℚ)
    (h : r.targetsLoaded = true → carriesTargets r) :
    (enterSlowdown r now).targetSymbols = r.targetSymbols
      ∧ (enterSlowdown r now).config = r.config
      ∧ (enterSlowdown r now).symbols.length = r.symbols.length
      ∧ ((enterSlowdown r now).targetsLoaded = true → carriesTargets (enterSlowdown r now)) := by
  unfold enterSlowdown
  dsimp only
  split_ifs with hs hl
  · exact ⟨rfl, rfl, by simp [loadTargetSymbolsSmooth],
      fun _ => carriesTargets_load_flag { r with stopping := true, slowdownStartTime := now }⟩
  · exact ⟨rfl, rfl, rfl, h⟩
  · exact ⟨rfl, rfl, rfl, h⟩

theorem finalizeStop_inv {σ : Type} (r : Reel σ) (hstrip : r.config.rows ≤ r.symbols.length)
    (h : r.targetsLoaded = true → carriesTargets r) :
    ∃ r', finalizeStop r = some r' ∧ r'.targetSymbols = r.targetSymbols ∧ r'.config = r.config
      ∧ r'.symbols.length = r.symbols.length
      ∧ (r'.targetsLoaded = true → carriesTargets r') := by
  by_cases hl : r.targetsLoaded = true
  · obtain ⟨r', hr', hv, hl', ht, hc, hlen⟩ := stripValues_finalizeStop r hstrip (h hl)
    exact ⟨r', hr', ht, hc, hlen, fun _ => carriesTargets_of_stripValues r r' hv ht hc (h hl)⟩
  · refine ⟨_, finalizeStop_eq r hstrip, rfl, rfl, by simp, ?_⟩
    intro hl'
    exact absurd hl' hl

theorem slowdown_inv {σ : Type} (r : Reel σ) (tk : Tick σ)
    (hstrip : r.config.rows ≤ r.symbols.length)
    (h : r.targetsLoaded = true → carriesTargets r) :
    ∃ r', slowdown r tk = some r' ∧ r'.targetSymbols = r.targetSymbols ∧ r'.config = r.config
      ∧ r'.symbols.length = r.symbols.length
      ∧ (r'.targetsLoaded = true → carriesTargets r') := by
  obtain ⟨het, hec, helen, hecar⟩ := enterSlowdown_inv r tk.nowSlowdown h
  unfold slowdown
  generalize enterSlowdown r tk.nowSlowdown = r3 at het hec helen hecar
  simp only []
  generalize r3.spinSpeed *
    (1 - (1 - (1 - min ((tk.nowEase - r3.slowdownStartTime) / 1000) 1) ^ 4)) = speed
  by_cases hfin : speed < 3 / 10
  · rw [if_pos hfin]
    obtain ⟨r', hr', ht', hc', hlen', hcar'⟩ :=
      finalizeStop_inv { r3 with currentSpeed := speed }
        (by simp only [hec, helen]; exact hstrip) hecar
    exact ⟨r', hr', ht'.trans het, hc'.trans hec, hlen'.trans helen, hcar'⟩
  · rw [if_neg hfin]
    exact ⟨_, rfl, het, hec, helen, hecar⟩

/-- Every `update()` on a reel whose strip is at least `rows` long returns a
state; it keeps the targets, the configuration and the strip length, and the
strip carries the targets whenever `targetsLoaded` is true. -/
theorem update_inv {σ : Type} (r : Reel σ) (tk : Tick σ)
    (hstrip : r.config.rows ≤ r.symbols.length)
    (h : r.targetsLoaded = true → carriesTargets r) :
    ∃ r', update r tk = some r' ∧ r'.targetSymbols = r.targetSymbols ∧ r'.config = r.config
      ∧ r'.symbols.length = r.symbols.length
      ∧ (r'.targetsLoaded = true → carriesTargets r') := by
  unfold update
  by_cases hspin : r.spinning = false
  · rw [if_pos hspin]
    exact ⟨r, rfl, rfl, rfl, rfl, h⟩
  · rw [if_neg hspin]
    simp only []
    generalize tk.now - r.spinStartTime = elapsed
    generalize (r.config.spinDuration + (r.index : ℚ) * 200) = slowAt
    generalize slowAt * (4 / 10 - (r.index : ℚ) * (2 / 100)) = loadAt
    have hlen1 : (moveAndWrap r elapsed loadAt tk.pick).symbols.length = r.symbols.length := by
      simp [moveAndWrap]
    obtain ⟨hpt, hpc, hplen, hpcar⟩ :=
      preload_inv (moveAndWrap r elapsed loadAt tk.pick) elapsed loadAt
        (moveAndWrap_inv r elapsed loadAt tk.pick h)
    generalize preload (moveAndWrap r elapsed loadAt tk.pick) elapsed loadAt = r2
      at hpt hpc hplen hpcar
    have ht2 : r2.targetSymbols = r.targetSymbols := hpt
    have hc2 : r2.config = r.config := hpc
    have hlen2 : r2.symbols.length = r.symbols.length := hplen.trans hlen1
    by_cases hslow : r2.stopping = true ∨ elapsed > slowAt
    · rw [if_pos hslow]
      obtain ⟨r', hr', ht', hc', hlen', hcar'⟩ :=
        slowdown_inv r2 tk (by rw [hc2, hlen2]; exact hstrip) hpcar
      exact ⟨r', hr', ht'.trans ht2, hc'.trans hc2, hlen'.trans hlen2, hcar'⟩
    · rw [if_neg hslow]
      exact ⟨r2, rfl, ht2, hc2, hlen2, hpcar⟩

theorem runTicks_inv {σ : Type} (ticks : List (Tick σ)) (r : Reel σ)
    (hstrip : r.config.rows ≤ r.symbols.length)
    (h : r.targetsLoaded = true → carriesTargets r) :
    ∃ r', runTicks r ticks = some r' ∧ r'.targetSymbols = r.targetSymbols ∧ r'.config = r.config
      ∧ r'.symbols.length = r.symbols.length
      ∧ (r'.targetsLoaded = true → carriesTargets r') := by
  induction ticks generalizing r with
  | nil => exact ⟨r, rfl, rfl, rfl, rfl, h⟩
  | cons tk rest ih =>
    obtain ⟨r1, hr1, ht1, hc1, hlen1, hcar1⟩ := update_inv r tk hstrip h
    obtain ⟨r', hr', ht', hc', hlen', hcar'⟩ := ih r1 (by rw [hc1, hlen1]; exact hstrip) hcar1
    refine ⟨r', ?_, ht'.trans ht1, hc'.trans hc1, hlen'.trans hlen1, hcar'⟩
    simp only [runTicks, hr1, hr']

theorem runTicks_loaded {σ : Type} (ticks : List (Tick σ)) (r : Reel σ)
    (hstrip : r.config.rows ≤ r.symbols.length)
    (hloaded : r.targetsLoaded = true) (h : carriesTargets r) :
    ∃ r', runTicks r ticks = some r' ∧ stripValues r' = stripValues r := by
  induction ticks generalizing r with
  | nil => exact ⟨r, rfl, rfl⟩
  | cons tk rest ih =>
    obtain ⟨r1, hr1, hv1, hl1, ht1, hc1, hlen1⟩ := update_loaded r tk hstrip hloaded h
    obtain ⟨r', hr', hv'⟩ := ih r1 (by rw [hc1, hlen1]; exact hstrip) hl1
      (carriesTargets_of_stripValues r r1 hv1 ht1 hc1 h)
    refine ⟨r', ?_, hv'.trans hv1⟩
    simp only [runTicks, hr1, hr']

/-- C6 (amended): for every sequence of `update()` ticks after `startSpin`,
the reel reaches a state `r1`; if the pre-load rewrite has run by then
(`targetsLoaded` is true), every strip symbol `i`, visible or not, shows
`targetSymbols[i mod rows]`, and after any further ticks, up to and including
the stop, every strip symbol still shows the value it showed in `r1`. -/
theorem values_fixed_after_preload {σ : Type} (r0 : Reel σ) (targetSymbols : List σ) (now : ℚ)
    (before after : List (Tick σ)) (hstrip : r0.config.rows ≤ r0.symbols.length) :
    ∃ r1, runTicks (startSpin r0 targetSymbols now) before = some r1
      ∧ (r1.targetsLoaded = true →
          stripValues r1
              = (List.range r0.symbols.length).map (targetAtMod targetSymbols r0.config.rows)
            ∧ ∃ r2, runTicks r1 after = some r2 ∧ stripValues r2 = stripValues r1) := by
  obtain ⟨r1, hr1, ht1, hc1, hlen1, hcar1⟩ :=
    runTicks_inv before (startSpin r0 targetSymbols now) hstrip
      (fun hl => Bool.noConfusion (hl : false = true))
  refine ⟨r1, hr1, fun hl => ⟨?_, ?_⟩⟩
  · have := carriesTargets_stripValues r1 (hcar1 hl)
    rw [this, ht1, hc1, hlen1]
    rfl
  · exact runTicks_loaded after r1 (by rw [hc1, hlen1]; exact hstrip) hl (hcar1 hl)

/-- Witness for C6 (amended): reel 0, a first tick at time 600 and a later
tick at time 2000. -/
theorem values_fixed_after_preload_witness :
    ∃ r1, runTicks (startSpin exampleReel ['B', 'A', 'A', 'A'] 0) [exampleTick 600] = some r1
      ∧ (r1.targetsLoaded = true →
          stripValues r1
              = (List.range exampleReel.symbols.length).map
                  (targetAtMod ['B', 'A', 'A', 'A'] exampleReel.config.rows)
            ∧ ∃ r2, runTicks r1 [exampleTick 2000] = some r2
                ∧ stripValues r2 = stripValues r1) :=
  values_fixed_after_preload exampleReel ['B', 'A', 'A', 'A'] 0 [exampleTick 600]
    [exampleTick 2000] (by decide)

/-! ## Theorems: PaylineGenerator -/

theorem isDuplicateLine_iff (lines : List (List ℤ)) (pattern : List ℤ) :
    isDuplicateLine lines pattern = true ↔ pattern ∈ lines := by
  have key : ∀ ln : List ℤ,
      (ln.length = pattern.length ∧ ∀ x ∈ ln.enum, pattern[x.1]? = some x.2)
        ↔ ln = pattern := by
    intro ln
    constructor
    · rintro ⟨hlen, hall⟩
      apply List.ext_getElem?
      intro i
      by_cases hi : i < ln.length
      · have hmem : (i, ln.get ⟨i, hi⟩) ∈ ln.enum :=
          List.mk_mem_enum_iff_getElem?.mpr (List.getElem?_eq_getElem hi)
        rw [hall _ hmem, List.getElem?_eq_getElem hi]
        rfl
      · rw [List.getElem?_eq_none (by omega), List.getElem?_eq_none (by omega)]
    · rintro rfl
      exact ⟨rfl, fun x hx => List.mem_enum_iff_getElem?.mp hx⟩
  simp only [isDuplicateLine, List.any_eq_true, Bool.and_eq_true, decide_eq_true_eq,
    List.all_eq_true]
  constructor
  · rintro ⟨ln, hline, h⟩
    rw [← (key ln).mp h]
    exact hline
  · intro h
    exact ⟨pattern, h, (key pattern).mpr rfl⟩

theorem pushIfNew_nodup (lines : List (List ℤ)) (pattern : List ℤ) (h : lines.Nodup) :
    (pushIfNew lines pattern).Nodup := by
  unfold pushIfNew
  by_cases hd : isDuplicateLine lines pattern = true
  · rw [if_pos hd]
    exact h
  · rw [if_neg hd]
    rw [isDuplicateLine_iff] at hd
    exact List.Nodup.append h (List.nodup_singleton _) (by simpa using hd)

theorem pushIfNew_length_le (lines : List (List ℤ)) (pattern : List ℤ) :
    (pushIfNew lines pattern).length ≤ lines.length + 1 := by
  unfold pushIfNew
  split_ifs <;> simp

theorem foldl_pushIfNew_nodup {α : Type} (f : α → List ℤ) (xs : List α)
    (lines : List (List ℤ)) (h : lines.Nodup) :
    (xs.foldl (fun lines x => pushIfNew lines (f x)) lines).Nodup := by
  induction xs generalizing lines with
  | nil => exact h
  | cons x rest ih => exact ih _ (pushIfNew_nodup lines (f x) h)

theorem foldl_pushIfNew_length_le {α : Type} (f : α → List ℤ) (xs : List α)
    (lines : List (List ℤ)) :
    (xs.foldl (fun lines x => pushIfNew lines (f x)) lines).length
      ≤ lines.length + xs.length := by
  induction xs generalizing lines with
  | nil => simp
  | cons x rest ih =>
    have h1 := ih (pushIfNew lines (f x))
    have h2 := pushIfNew_length_le lines (f x)
    simp only [List.foldl_cons, List.length_cons]
    omega

theorem generateWavePatterns_nodup (reels rows : ℕ) (wave : ℕ → ℕ → ℚ) :
    (generateWavePatterns reels rows wave).Nodup := by
  unfold generateWavePatterns
  apply List.Nodup.sublist (List.take_sublist _ _)
  simp only [List.foldl_cons, List.foldl_nil]
  exact foldl_pushIfNew_nodup _ _ _ (foldl_pushIfNew_nodup _ _ _
    (foldl_pushIfNew_nodup _ _ _ (foldl_pushIfNew_nodup _ _ _ List.nodup_nil)))

theorem generateWavePatterns_length_le (reels rows : ℕ) (wave : ℕ → ℕ → ℚ) :
    (generateWavePatterns reels rows wave).length ≤ 4 * rows := by
  unfold generateWavePatterns
  simp only [List.foldl_cons, List.foldl_nil, List.length_take]
  have h1 := foldl_pushIfNew_length_le (wavePattern reels rows wave 1) (List.range rows) []
  have h2 := foldl_pushIfNew_length_le (wavePattern reels rows wave 2) (List.range rows)
    ((List.range rows).foldl (fun lines x => pushIfNew lines (wavePattern reels rows wave 1 x)) [])
  have h3 := foldl_pushIfNew_length_le (wavePattern reels rows wave 3) (List.range rows)
    ((List.range rows).foldl (fun lines x => pushIfNew lines (wavePattern reels rows wave 2 x))
      ((List.range rows).foldl
        (fun lines x => pushIfNew lines (wavePattern reels rows wave 1 x)) []))
  have h4 := foldl_pushIfNew_length_le (wavePattern reels rows wave 4) (List.range rows)
    ((List.range rows).foldl (fun lines x => pushIfNew lines (wavePattern reels rows wave 3 x))
      ((List.range rows).foldl (fun lines x => pushIfNew lines (wavePattern reels rows wave 2 x))
        ((List.range rows).foldl
          (fun lines x => pushIfNew lines (wavePattern reels rows wave 1 x)) [])))
  simp only [List.length_range, List.length_nil] at h1 h2 h3 h4
  omega

theorem stepWalks_nodup (reels rows : ℕ) (starts : List ℕ) (lines : List (List ℤ))
    (h : lines.Nodup) :
    (starts.foldl (fun lines (startRow : ℕ) =>
      [-1, 0, 1].foldl (fun lines (step : ℤ) =>
        if step = 0 then lines
        else pushIfNew lines (stepWalk rows step reels (startRow : ℤ))) lines) lines).Nodup := by
  induction starts generalizing lines with
  | nil => exact h
  | cons s rest ih =>
    apply ih
    simp only [List.foldl_cons, List.foldl_nil]
    norm_num
    exact pushIfNew_nodup _ _ (pushIfNew_nodup _ _ h)

theorem generateStepPatterns_nodup (reels rows : ℕ) :
    (generateStepPatterns reels rows).Nodup := by
  unfold generateStepPatterns
  apply List.Nodup.sublist (List.take_sublist _ _)
  exact foldl_pushIfNew_nodup _ _ _ (stepWalks_nodup reels rows _ [] List.nodup_nil)

theorem randomLoop_nodup (reels rows count : ℕ) (rnd : ℕ → ℚ) (remaining attempts : ℕ)
    (lines : List (List ℤ)) (h : lines.Nodup) :
    (randomLoop reels rows count rnd remaining attempts lines).Nodup := by
  induction remaining generalizing attempts lines with
  | zero => exact h
  | succ n ih =>
    unfold randomLoop
    split_ifs
    · exact ih _ _ (pushIfNew_nodup _ _ h)
    · exact h

theorem randomLoop_length_le (reels rows count : ℕ) (rnd : ℕ → ℚ) (remaining attempts : ℕ)
    (lines : List (List ℤ)) (h : lines.length ≤ count) :
    (randomLoop reels rows count rnd remaining attempts lines).length ≤ count := by
  induction remaining generalizing attempts lines with
  | zero => exact h
  | succ n ih =>
    unfold randomLoop
    split_ifs with hlt
    · apply ih
      have := pushIfNew_length_le lines (randomPattern reels rows rnd (attempts * (reels + 1)))
      omega
    · exact h

theorem generateRandomPatterns_nodup (reels rows : ℕ) (rnd : ℕ → ℚ) (count : ℕ) :
    (generateRandomPatterns reels rows rnd count).Nodup :=
  randomLoop_nodup reels rows count rnd _ _ [] List.nodup_nil

theorem generateRandomPatterns_length_le (reels rows : ℕ) (rnd : ℕ → ℚ) (count : ℕ) :
    (generateRandomPatterns reels rows rnd count).length ≤ count :=
  randomLoop_length_le reels rows count rnd _ _ [] (Nat.zero_le _)

theorem generateStepPatterns_5_4 :
    generateStepPatterns 5 4
      = [[0, 1, 0, 1, 0], [0, 1, 2, 3, 2], [1, 0, 1, 0, 1], [1, 2, 3, 2, 3],
         [2, 1, 0, 1, 0], [2, 3, 2, 3, 2], [3, 2, 1, 0, 1], [3, 2, 3, 2, 3],
         [0, 1, 2, 3, 0], [1, 2, 3, 0, 1], [2, 3, 0, 1, 2], [3, 0, 1, 2, 3]] := by
  decide

theorem generateVShapes_4 : generateVShapes 4 = vShapePatterns := by
  decide

theorem generateDiagonals_length (reels rows : ℕ) : (generateDiagonals reels rows).length = 2 :=
  rfl

theorem generateHorizontal_length (reels rows : ℕ) :
    (generateHorizontal reels rows).length = rows := by
  simp [generateHorizontal]

/-- In the 5 × 4 catalog the V-shape `[1,0,1,0,1]` (entry 20) comes back as the
third step pattern, at an index below 40, whatever the wave values and the
random draws are. -/
theorem getPaylines_5_4_40_dup (wave : ℕ → ℕ → ℚ) (rnd : ℕ → ℚ) :
    ¬ (getPaylines 5 4 wave rnd 40).Nodup := by
  intro hnodup
  have hW := generateWavePatterns_length_le 5 4 wave
  have hpre : (generateHorizontal 5 4 ++ generateDiagonals 5 4 ++ generateVShapes 4
        ++ (generateWavePatterns 5 4 wave ++ (generateStepPatterns 5 4).take 3))
      <+: getPaylines 5 4 wave rnd 40 := by
    rw [getPaylines, List.prefix_take_iff]
    constructor
    · refine ⟨(generateStepPatterns 5 4).drop 3 ++ generateRandomPatterns 5 4 rnd 40, ?_⟩
      unfold generateAll
      conv_rhs => rw [← List.take_append_drop 3 (generateStepPatterns 5 4)]
      simp only [List.append_assoc]
    · simp only [List.length_append, generateHorizontal_length, generateDiagonals_length,
        generateVShapes_4, generateStepPatterns_5_4, List.length_take]
      simp only [vShapePatterns, List.length_cons, List.length_nil]
      omega
  have hP := List.Nodup.sublist hpre.sublist hnodup
  rw [List.nodup_append] at hP
  have hdisj := hP.2.2
  have h1 : ([1, 0, 1, 0, 1] : List ℤ)
      ∈ generateHorizontal 5 4 ++ generateDiagonals 5 4 ++ generateVShapes 4 := by
    apply List.mem_append_right
    rw [generateVShapes_4]
    decide
  have h2 : ([1, 0, 1, 0, 1] : List ℤ)
      ∈ generateWavePatterns 5 4 wave ++ (generateStepPatterns 5 4).take 3 := by
    apply List.mem_append_right
    rw [generateStepPatterns_5_4]
    decide
  exact hdisj h1 h2

theorem generateAll_5_4_dup (wave : ℕ → ℕ → ℚ) (rnd : ℕ → ℚ) :
    ¬ (generateAll 5 4 wave rnd).Nodup := by
  intro h
  exact getPaylines_5_4_40_dup wave rnd (List.Nodup.sublist (List.take_sublist _ _) h)

/-- C7, counterexample: the configured 5 × 4 catalog and its 40-line tier both
hold the same payline twice (with the sine values of the 5-reel generator and
a random source that always draws 0). -/
theorem catalog_not_deduplicated :
    ¬ (generateAll 5 4 wave5 rndZero).Nodup ∧ ¬ (getPaylines 5 4 wave5 rndZero 40).Nodup :=
  ⟨generateAll_5_4_dup wave5 rndZero, getPaylines_5_4_40_dup wave5 rndZero⟩

/-- C7 (amended): for every grid shape with `reels ≥ 2` and `rows ≥ 1`, every
sine function and every random source, each of the wave, step and random
families of `generateAll()` is deduplicated on its own: no two entries of the
same family are element-wise equal. -/
theorem families_deduplicated (reels rows : ℕ) (wave : ℕ → ℕ → ℚ) (rnd : ℕ → ℚ)
    (_hreels : 2 ≤ reels) (_hrows : 1 ≤ rows) :
    (generateWavePatterns reels rows wave).Nodup
      ∧ (generateStepPatterns reels rows).Nodup
      ∧ (generateRandomPatterns reels rows rnd 40).Nodup :=
  ⟨generateWavePatterns_nodup reels rows wave, generateStepPatterns_nodup reels rows,
    generateRandomPatterns_nodup reels rows rnd 40⟩

/-- Witness for C7 (amended): the configured 5 × 4 generator. -/
theorem families_deduplicated_witness :
    (generateWavePatterns 5 4 wave5).Nodup
      ∧ (generateStepPatterns 5 4).Nodup
      ∧ (generateRandomPatterns 5 4 rndZero 40).Nodup :=
  families_deduplicated 5 4 wave5 rndZero (by decide) (by decide)

theorem mem_generateAll_of_mem_vShapes (reels rows : ℕ) (wave : ℕ → ℕ → ℚ) (rnd : ℕ → ℚ)
    (p : List ℤ) (h : p ∈ generateVShapes rows) : p ∈ generateAll reels rows wave rnd := by
  unfold generateAll
  simp only [List.mem_append]
  exact Or.inl (Or.inl (Or.inl (Or.inr h)))

theorem mem_generateAll_of_mem_step (reels rows : ℕ) (wave : ℕ → ℕ → ℚ) (rnd : ℕ → ℚ)
    (p : List ℤ) (h : p ∈ generateStepPatterns reels rows) :
    p ∈ generateAll reels rows wave rnd := by
  unfold generateAll
  simp only [List.mem_append]
  exact Or.inl (Or.inr h)

/-- C8, at the failing input `reels = 3`, `rows = 3`: whatever the wave values
and the random draws are, the catalog returned by `generateAll()` holds the
V-shape `[0,1,2,1,0]`, whose length is 5 and not 3. -/
theorem generateAll_3_3_has_length_5 (wave : ℕ → ℕ → ℚ) (rnd : ℕ → ℚ) :
    ([0, 1, 2, 1, 0] : List ℤ) ∈ generateAll 3 3 wave rnd
      ∧ ([0, 1, 2, 1, 0] : List ℤ).length = 5 :=
  ⟨mem_generateAll_of_mem_vShapes 3 3 wave rnd _ (by decide), rfl⟩

/-- C9, at the failing input `reels = 5`, `rows = 1`: whatever the wave values
and the random draws are, the catalog returned by `generateAll()` holds the
step pattern `[0,-1,-1,-1,-1]`, whose row value `-1` is not in `[0, rows)`. -/
theorem generateAll_5_1_has_negative_row (wave : ℕ → ℕ → ℚ) (rnd : ℕ → ℚ) :
    ([0, -1, -1, -1, -1] : List ℤ) ∈ generateAll 5 1 wave rnd
      ∧ (-1 : ℤ) ∈ ([0, -1, -1, -1, -1] : List ℤ) :=
  ⟨mem_generateAll_of_mem_step 5 1 wave rnd _ (by decide), by decide⟩

theorem wavePattern_5_4 :
    wavePattern 5 4 wave5 1 0 = [1, 2, 3, 2, 1] ∧ wavePattern 5 4 wave5 1 1 = [2, 3, 0, 3, 2]
      ∧ wavePattern 5 4 wave5 1 2 = [3, 0, 1, 0, 3] ∧ wavePattern 5 4 wave5 1 3 = [0, 1, 2, 1, 0]
      ∧ wavePattern 5 4 wave5 2 0 = [1, 3, 1, 0, 1] ∧ wavePattern 5 4 wave5 2 1 = [2, 0, 2, 1, 2]
      ∧ wavePattern 5 4 wave5 2 2 = [3, 1, 3, 2, 3] ∧ wavePattern 5 4 wave5 2 3 = [0, 2, 0, 3, 0]
      ∧ wavePattern 5 4 wave5 3 0 = [1, 2, 0, 2, 1] ∧ wavePattern 5 4 wave5 3 1 = [2, 3, 1, 3, 2]
      ∧ wavePattern 5 4 wave5 3 2 = [3, 0, 2, 0, 3] ∧ wavePattern 5 4 wave5 3 3 = [0, 1, 3, 1, 0]
      ∧ wavePattern 5 4 wave5 4 0 = [1, 1, 1, 1, 1] ∧ wavePattern 5 4 wave5 4 1 = [2, 2, 2, 2, 2]
      ∧ wavePattern 5 4 wave5 4 2 = [3, 3, 3, 3, 3]
      ∧ wavePattern 5 4 wave5 4 3 = [0, 0, 0, 0, 0] := by
  refine ⟨?_, ?_, ?_, ?_, ?_, ?_, ?_, ?_, ?_, ?_, ?_, ?_, ?_, ?_, ?_, ?_⟩ <;>
    norm_num [wavePattern, wave5, sinQuarterTurns, List.range_succ_eq_map] <;> decide

theorem generateWavePatterns_5_4 :
    generateWavePatterns 5 4 wave5
      = [[1, 2, 3, 2, 1], [2, 3, 0, 3, 2], [3, 0, 1, 0, 3], [0, 1, 2, 1, 0],
         [1, 3, 1, 0, 1], [2, 0, 2, 1, 2], [3, 1, 3, 2, 3], [0, 2, 0, 3, 0],
         [1, 2, 0, 2, 1], [2, 3, 1, 3, 2], [3, 0, 2, 0, 3], [0, 1, 3, 1, 0],
         [1, 1, 1, 1, 1], [2, 2, 2, 2, 2], [3, 3, 3, 3, 3], [0, 0, 0, 0, 0]] := by
  obtain ⟨h10, h11, h12, h13, h20, h21, h22, h23, h30, h31, h32, h33, h40, h41, h42, h43⟩ :=
    wavePattern_5_4
  have hr : List.range 4 = [0, 1, 2, 3] := by decide
  simp only [generateWavePatterns, hr, List.foldl_cons, List.foldl_nil, h10, h11, h12, h13,
    h20, h21, h22, h23, h30, h31, h32, h33, h40, h41, h42, h43]
  decide

theorem length_le_pushIfNew (lines : List (List ℤ)) (pattern : List ℤ) :
    lines.length ≤ (pushIfNew lines pattern).length := by
  unfold pushIfNew
  split_ifs <;> simp

theorem randomLoop_length_ge (reels rows count : ℕ) (rnd : ℕ → ℚ) (remaining attempts : ℕ)
    (lines : List (List ℤ)) :
    lines.length ≤ (randomLoop reels rows count rnd remaining attempts lines).length := by
  induction remaining generalizing attempts lines with
  | zero => exact le_refl _
  | succ n ih =>
    unfold randomLoop
    split_ifs
    · exact le_trans (length_le_pushIfNew _ _) (ih _ _)
    · exact le_refl _

theorem generateRandomPatterns_40_pos (reels rows : ℕ) (rnd : ℕ → ℚ) :
    1 ≤ (generateRandomPatterns reels rows rnd 40).length := by
  have h := randomLoop_length_ge reels rows 40 rnd 399 1
    (pushIfNew [] (randomPattern reels rows rnd (0 * (reels + 1))))
  have h1 : (pushIfNew [] (randomPattern reels rows rnd (0 * (reels + 1)))).length = 1 := by
    simp [pushIfNew, isDuplicateLine]
  have h2 : generateRandomPatterns reels rows rnd 40
      = randomLoop reels rows 40 rnd 399 1
          (pushIfNew [] (randomPattern reels rows rnd (0 * (reels + 1)))) := by
    unfold generateRandomPatterns
    rw [show (40 * 10 : ℕ) = 399 + 1 from rfl, randomLoop]
    rw [if_pos (by decide)]
  rw [h2]
  omega

theorem generateAll_5_4_length (wave : ℕ → ℕ → ℚ) (rnd : ℕ → ℚ) :
    (generateAll 5 4 wave rnd).length
      = 33 + (generateWavePatterns 5 4 wave).length
          + (generateRandomPatterns 5 4 rnd 40).length := by
  simp only [generateAll, List.length_append, generateHorizontal_length,
    generateDiagonals_length, generateVShapes_4, generateStepPatterns_5_4]
  simp only [vShapePatterns, List.length_cons, List.length_nil]
  omega

/-- C10, for the configured 5 × 4 generator and every random source: the tier
of 100 holds at most 89 paylines (whatever the wave values are), while with
the sine values of the 5-reel generator the tiers of 20 and 40 hold exactly 20
and 40 paylines and the tier of 100 holds at least 50. -/
theorem tier_100_is_short (wave : ℕ → ℕ → ℚ) (rnd : ℕ → ℚ) :
    (getPaylines 5 4 wave rnd 100).length ≤ 89
      ∧ (getPaylines 5 4 wave5 rnd 20).length = 20
      ∧ (getPaylines 5 4 wave5 rnd 40).length = 40
      ∧ 50 ≤ (getPaylines 5 4 wave5 rnd 100).length := by
  have hW := generateWavePatterns_length_le 5 4 wave
  have hR := generateRandomPatterns_length_le 5 4 rnd 40
  have hR1 := generateRandomPatterns_40_pos 5 4 rnd
  have hW5 : (generateWavePatterns 5 4 wave5).length = 16 := by
    rw [generateWavePatterns_5_4]
    rfl
  simp only [getPaylines, List.length_take, generateAll_5_4_length, hW5]
  omega

/-! ## Theorems: tiers -/

/-- The part of the 5 × 4 catalog that precedes the random family has 49
entries (with the sine values of the 5-reel generator). -/
theorem fixed_part_5_4_length :
    (generateHorizontal 5 4 ++ generateDiagonals 5 4 ++ generateVShapes 4
      ++ generateWavePatterns 5 4 wave5 ++ generateStepPatterns 5 4).length = 49 := by
  simp only [List.length_append, generateHorizontal_length, generateDiagonals_length,
    generateVShapes_4, generateStepPatterns_5_4, generateWavePatterns_5_4]
  rfl

theorem getPaylines_5_4_of_le (rnd : ℕ → ℚ) (n : ℕ) (hn : n ≤ 49) :
    getPaylines 5 4 wave5 rnd n
      = (generateHorizontal 5 4 ++ generateDiagonals 5 4 ++ generateVShapes 4
          ++ generateWavePatterns 5 4 wave5 ++ generateStepPatterns 5 4).take n := by
  unfold getPaylines generateAll
  exact List.take_append_of_le_length (by rw [fixed_part_5_4_length]; exact hn)

/-- C11: for the 5 × 4 generator and any three random sources used by the
three calls, `getPaylines(20)` is a prefix of `getPaylines(40)`, which is a
prefix of `getPaylines(100)`. -/
theorem tiers_are_prefixes (rnd20 rnd40 rnd100 : ℕ → ℚ) :
    getPaylines 5 4 wave5 rnd20 20 <+: getPaylines 5 4 wave5 rnd40 40
      ∧ getPaylines 5 4 wave5 rnd40 40 <+: getPaylines 5 4 wave5 rnd100 100 := by
  constructor
  · rw [getPaylines_5_4_of_le rnd20 20 (by decide), getPaylines_5_4_of_le rnd40 40 (by decide)]
    exact List.take_prefix_take_left _ (by decide)
  · rw [getPaylines_5_4_of_le rnd40 40 (by decide)]
    unfold getPaylines generateAll
    rw [List.prefix_take_iff]
    constructor
    · exact (List.take_prefix _ _).trans (List.prefix_append _ _)
    · simp only [List.length_take, fixed_part_5_4_length]
      decide

theorem randomPattern_5_4_rndZero (k : ℕ) :
    randomPattern 5 4 rndZero k = [0, 0, 0, 0, 0] := by
  norm_num [randomPattern, randomWalk, rndZero]

theorem randomLoop_5_4_rndZero (remaining attempts : ℕ) :
    randomLoop 5 4 40 rndZero remaining attempts [[0, 0, 0, 0, 0]] = [[0, 0, 0, 0, 0]] := by
  induction remaining generalizing attempts with
  | zero => rfl
  | succ n ih =>
    rw [randomLoop, if_pos (by decide), randomPattern_5_4_rndZero]
    have hp : pushIfNew [[0, 0, 0, 0, 0]] [0, 0, 0, 0, 0] = [[0, 0, 0, 0, 0]] := by decide
    rw [hp]
    exact ih _

theorem generateRandomPatterns_5_4_rndZero :
    generateRandomPatterns 5 4 rndZero 40 = [[0, 0, 0, 0, 0]] := by
  unfold generateRandomPatterns
  rw [show (40 * 10 : ℕ) = 399 + 1 from rfl, randomLoop, if_pos (by decide),
    randomPattern_5_4_rndZero]
  have hp : pushIfNew [] [0, 0, 0, 0, 0] = [[0, 0, 0, 0, 0]] := by decide
  rw [hp]
  exact randomLoop_5_4_rndZero _ _

theorem generateAll_5_4_rndZero_length : (generateAll 5 4 wave5 rndZero).length = 50 := by
  rw [generateAll_5_4_length, generateWavePatterns_5_4, generateRandomPatterns_5_4_rndZero]
  rfl

/-- C12, counterexample: for the configured 5 × 4 generator and a random
source that always draws 0 the catalog has 50 entries; the specification's
tier selection fails for `n = 100`, while `getPaylines(100)` returns the whole
catalog, a list of 50 entries. -/
theorem getPaylines_returns_short_list :
    (generateAll 5 4 wave5 rndZero).length = 50
      ∧ getTier (generateAll 5 4 wave5 rndZero) 100 = none
      ∧ getPaylines 5 4 wave5 rndZero 100 = generateAll 5 4 wave5 rndZero
      ∧ (getPaylines 5 4 wave5 rndZero 100).length = 50 := by
  have hlen := generateAll_5_4_rndZero_length
  refine ⟨hlen, ?_, ?_, ?_⟩
  · simp [getTier, hlen]
  · exact List.take_of_length_le (by rw [hlen]; decide)
  · rw [getPaylines, List.take_of_length_le (by rw [hlen]; decide), hlen]

/-- C12 (amended): for every `n`, `getPaylines(n)` returns the first `n`
entries of the catalog of its call; when `n` does not exceed the catalog
length this is the tier of the specification and has exactly `n` entries, and
when `n` exceeds the catalog length it is the whole catalog, returned without
a failure. -/
theorem getPaylines_is_slice (reels rows : ℕ) (wave : ℕ → ℕ → ℚ) (rnd : ℕ → ℚ) (n : ℕ) :
    getPaylines reels rows wave rnd n = (generateAll reels rows wave rnd).take n
      ∧ (n ≤ (generateAll reels rows wave rnd).length →
          getTier (generateAll reels rows wave rnd) n = some (getPaylines reels rows wave rnd n)
            ∧ (getPaylines reels rows wave rnd n).length = n)
      ∧ ((generateAll reels rows wave rnd).length < n →
          getPaylines reels rows wave rnd n = generateAll reels rows wave rnd) := by
  refine ⟨rfl, ?_, ?_⟩
  · intro h
    exact ⟨by simp [getTier, h, getPaylines], by simp [getPaylines, h]⟩
  · intro h
    exact List.take_of_length_le (le_of_lt h)

/-- Witness for C12 (amended): the tier of 20 and the tier of 100 of the
configured generator with a random source that always draws 0. -/
theorem getPaylines_is_slice_witness :
    (getPaylines 5 4 wave5 rndZero 20).length = 20
      ∧ getPaylines 5 4 wave5 rndZero 100 = generateAll 5 4 wave5 rndZero :=
  ⟨((getPaylines_is_slice 5 4 wave5 rndZero 20).2.1
      (by rw [generateAll_5_4_rndZero_length]; decide)).2,
   (getPaylines_is_slice 5 4 wave5 rndZero 100).2.2
      (by rw [generateAll_5_4_rndZero_length]; decide)⟩

/-! ## Theorems: WeightedRandom -/

theorem totalWeight_create {σ : Type} (items : List σ) (weights : List ℚ) :
    (WeightedRandom.create items weights).totalWeight = weights.sum := by
  simp [WeightedRandom.create, List.sum_eq_foldl]

theorem sum_take_mono (weights : List ℚ) (hnonneg : ∀ w ∈ weights, 0 ≤ w) (j k : ℕ)
    (hjk : j ≤ k) : (weights.take j).sum ≤ (weights.take k).sum := by
  induction k with
  | zero =>
    have : j = 0 := by omega
    rw [this]
  | succ k ih =>
    by_cases hj : j = k + 1
    · rw [hj]
    · have h1 := ih (by omega)
      by_cases hk : k < weights.length
      · rw [List.sum_take_succ _ _ hk]
        have := hnonneg _ (List.getElem_mem hk)
        linarith
      · rw [List.take_of_length_le (show weights.length ≤ k + 1 by omega)]
        rw [List.take_of_length_le (show weights.length ≤ k by omega)] at h1
        exact h1

/-- The scan of the specification entered at index `i` with what is left of
the draw `r0` after the first `i` weights: in exact arithmetic it returns at
the index `k` whose cumulative interval contains `r0`. -/
theorem pickLoopExact_spec (weights : List ℚ) (r0 : ℚ) (n i : ℕ)
    (hni : i + n = weights.length)
    (hlow : (weights.take i).sum ≤ r0) (hhigh : r0 < weights.sum) :
    ∃ k, i ≤ k ∧ k < weights.length
      ∧ pickLoopExact weights n i (some (r0 - (weights.take i).sum)) = some k
      ∧ (weights.take k).sum ≤ r0 ∧ r0 < (weights.take (k + 1)).sum := by
  induction n generalizing i with
  | zero =>
    rw [List.take_of_length_le (by omega)] at hlow
    exact absurd hhigh (not_lt.mpr hlow)
  | succ n ih =>
    have hi : i < weights.length := by omega
    have hsum := List.sum_take_succ weights i hi
    by_cases hlt : r0 - (weights.take i).sum < weights[i]
    · refine ⟨i, le_refl _, hi, ?_, hlow, ?_⟩
      · simp [pickLoopExact, List.getElem?_eq_getElem hi, hlt]
      · rw [hsum]; linarith
    · have hlow' : (weights.take (i + 1)).sum ≤ r0 := by rw [hsum]; linarith
      obtain ⟨k, hik, hk, hloop, h1, h2⟩ := ih (i + 1) (by omega) hlow'
      refine ⟨k, by omega, hk, ?_, h1, h2⟩
      rw [← hloop, hsum]
      simp only [pickLoopExact, List.getElem?_eq_getElem hi, hlt, if_false]
      congr 2
      ring

/-- In exact arithmetic the scan of the specification, on non-negative weights
and a draw `r` with `0 ≤ r < weights[0] + … + weights[n-1]`, returns at the
least index `i` with `r < weights[0] + … + weights[i]`, and an index `k` is
the one returned exactly when `r` lies in the interval of length `weights[k]`
that starts at `weights[0] + … + weights[k-1]`. -/
theorem pickLoopExact_cumulative (weights : List ℚ) (r : ℚ)
    (hnonneg : ∀ w ∈ weights, 0 ≤ w) (hr0 : 0 ≤ r) (hr : r < weights.sum) :
    (∃ i, i < weights.length
        ∧ pickLoopExact weights weights.length 0 (some r) = some i
        ∧ r < (weights.take (i + 1)).sum
        ∧ (∀ j, j < i → (weights.take (j + 1)).sum ≤ r))
      ∧ (∀ k, k < weights.length →
          (pickLoopExact weights weights.length 0 (some r) = some k
            ↔ (weights.take k).sum ≤ r ∧ r < (weights.take k).sum + weights.getD k 0)) := by
  obtain ⟨i, _, hi, hloop, hlow, hhigh⟩ :=
    pickLoopExact_spec weights r weights.length 0 (by omega) (by simpa using hr0) hr
  simp only [List.take_zero, List.sum_nil, sub_zero] at hloop
  have hinterval : ∀ k, k < weights.length →
      ((weights.take k).sum ≤ r ∧ r < (weights.take k).sum + weights.getD k 0 → k = i) := by
    intro k hkw hkr
    rw [List.getD_eq_getElem _ _ hkw, ← List.sum_take_succ weights k hkw] at hkr
    by_contra hne
    rcases Nat.lt_or_gt_of_ne hne with hlt | hgt
    · have := sum_take_mono weights hnonneg (k + 1) i (by omega)
      linarith [hkr.2]
    · have := sum_take_mono weights hnonneg (i + 1) k (by omega)
      linarith [hkr.1]
  refine ⟨⟨i, hi, hloop, hhigh, ?_⟩, ?_⟩
  · intro j hj
    have := sum_take_mono weights hnonneg (j + 1) i (by omega)
    linarith
  · intro k hk
    constructor
    · intro hk'
      rw [hloop] at hk'
      have hki : i = k := Option.some.inj hk'
      subst hki
      rw [List.getD_eq_getElem _ _ hi, ← List.sum_take_succ weights i hi]
      exact ⟨hlow, hhigh⟩
    · intro hkr
      rw [hinterval k hk hkr]
      exact hloop

/-- With the weights `[1, 0]` the loop of `pick()` returns at index 0 for
every draw below 1: no subtraction takes place. -/
theorem pickLoop_one_zero (r : ℚ) (h : r < 1) : pickLoop [1, 0] 2 0 (some r) = some 0 := by
  simp [pickLoop, h]

/-- The value of `toDouble` at a positive `x` of the binade `[2^e, 2^(e+1))`
whose quotient by the spacing `2^(e-52)` rounds to `n`. -/
theorem toDouble_of_binade (x : ℚ) (e n : ℤ) (h1 : (2 : ℚ) ^ e ≤ x)
    (h2 : x < (2 : ℚ) ^ (e + 1)) (hn : roundHalfEven (x / 2 ^ (e - 52)) = n) :
    toDouble x = (n : ℚ) * 2 ^ (e - 52) := by
  have hpos : (0 : ℚ) < x := lt_of_lt_of_le (by positivity) h1
  have hx : x ≠ 0 := ne_of_gt hpos
  have habs : |x| = x := abs_of_pos hpos
  have hlog : Int.log 2 |x| = e := by
    rw [habs]
    have ha : e ≤ Int.log 2 x :=
      (Int.zpow_le_iff_le_log (by norm_num) hpos).mp (by exact_mod_cast h1)
    have hb : Int.log 2 x < e + 1 :=
      (Int.lt_zpow_iff_log_lt (by norm_num) hpos).mp (by exact_mod_cast h2)
    omega
  simp only [toDouble, hx, if_false, hlog, hn]

theorem toDouble_zero : toDouble 0 = 0 := by
  simp [toDouble]

/-- The doubles `0.1`, `0.2`, `0.3`, `0.4` and `0.6`. -/
theorem toDouble_tenths :
    toDouble (1 / 10) = 3602879701896397 / 36028797018963968
      ∧ toDouble (2 / 10) = 3602879701896397 / 18014398509481984
      ∧ toDouble (3 / 10) = 5404319552844595 / 18014398509481984
      ∧ toDouble (4 / 10) = 3602879701896397 / 9007199254740992
      ∧ toDouble (6 / 10) = 5404319552844595 / 9007199254740992 := by
  refine ⟨?_, ?_, ?_, ?_, ?_⟩
  · rw [toDouble_of_binade (1 / 10) (-4) 7205759403792794 (by norm_num) (by norm_num)
      (by norm_num [roundHalfEven])]
    norm_num
  · rw [toDouble_of_binade (2 / 10) (-3) 7205759403792794 (by norm_num) (by norm_num)
      (by norm_num [roundHalfEven])]
    norm_num
  · rw [toDouble_of_binade (3 / 10) (-2) 5404319552844595 (by norm_num) (by norm_num)
      (by norm_num [roundHalfEven])]
    norm_num
  · rw [toDouble_of_binade (4 / 10) (-2) 7205759403792794 (by norm_num) (by norm_num)
      (by norm_num [roundHalfEven])]
    norm_num
  · rw [toDouble_of_binade (6 / 10) (-1) 5404319552844595 (by norm_num) (by norm_num)
      (by norm_num [roundHalfEven])]
    norm_num

/-- The two rounded differences of the scan from `r = 0.6`: `0.6 - 0.1` is the
tie between two doubles that rounds up to `0.5`, and `0.5 - 0.2` is the double
`0.3`. -/
theorem toDouble_differences :
    toDouble (18014398509481983 / 36028797018963968) = 1 / 2
      ∧ toDouble (5404319552844595 / 18014398509481984)
          = 5404319552844595 / 18014398509481984 := by
  refine ⟨?_, ?_⟩
  · rw [toDouble_of_binade _ (-2) 9007199254740992 (by norm_num) (by norm_num)
      (by norm_num [roundHalfEven])]
    norm_num
  · rw [toDouble_of_binade _ (-2) 5404319552844595 (by norm_num) (by norm_num)
      (by norm_num [roundHalfEven])]
    norm_num

/-- The total `0.1 + 0.2 + 0.3` as the `reduce` computes it in doubles is
`0.6000000000000001`, and its product with the draw `0.9999999999999998` of
`Math.random()` is the double `0.6`. -/
theorem exampleSampler_draw :
    exampleSampler.totalWeight = 1351079888211149 / 2251799813685248
      ∧ toDouble (4503599627370495 / 4503599627370496 * exampleSampler.totalWeight)
          = exampleDraw := by
  have h1 : toDouble (3602879701896397 / 36028797018963968)
      = 3602879701896397 / 36028797018963968 := by
    rw [toDouble_of_binade _ (-4) 7205759403792794 (by norm_num) (by norm_num)
      (by norm_num [roundHalfEven])]
    norm_num
  have h2 : toDouble (10808639105689191 / 36028797018963968)
      = 1351079888211149 / 4503599627370496 := by
    rw [toDouble_of_binade _ (-2) 5404319552844596 (by norm_num) (by norm_num)
      (by norm_num [roundHalfEven])]
    norm_num
  have h3 : toDouble (10808639105689191 / 18014398509481984)
      = 1351079888211149 / 2251799813685248 := by
    rw [toDouble_of_binade _ (-1) 5404319552844596 (by norm_num) (by norm_num)
      (by norm_num [roundHalfEven])]
    norm_num
  have h4 : toDouble (6084722881095500676824212648755 / 10141204801825835211973625643008)
      = 5404319552844595 / 9007199254740992 := by
    rw [toDouble_of_binade _ (-1) 5404319552844595 (by norm_num) (by norm_num)
      (by norm_num [roundHalfEven])]
    norm_num
  obtain ⟨d1, d2, d3, _, d6⟩ := toDouble_tenths
  have htotal : exampleSampler.totalWeight = 1351079888211149 / 2251799813685248 := by
    simp only [exampleSampler, exampleWeights3, d1, d2, d3, List.foldl_cons, List.foldl_nil]
    norm_num [h1, h2, h3]
  refine ⟨htotal, ?_⟩
  rw [htotal, exampleDraw, d6]
  norm_num [h4]

/-- The total `0.1 + 0.2 + 0.3 + 0.4` as the `reduce` computes it in doubles is
`1`, so that the draw `0.6` of `Math.random()` gives `r = 0.6`. -/
theorem exampleSampler4_draw :
    exampleSampler4.totalWeight = 1
      ∧ toDouble (exampleDraw * exampleSampler4.totalWeight) = exampleDraw := by
  have h1 : toDouble (3602879701896397 / 36028797018963968)
      = 3602879701896397 / 36028797018963968 := by
    rw [toDouble_of_binade _ (-4) 7205759403792794 (by norm_num) (by norm_num)
      (by norm_num [roundHalfEven])]
    norm_num
  have h2 : toDouble (10808639105689191 / 36028797018963968)
      = 1351079888211149 / 4503599627370496 := by
    rw [toDouble_of_binade _ (-2) 5404319552844596 (by norm_num) (by norm_num)
      (by norm_num [roundHalfEven])]
    norm_num
  have h3 : toDouble (10808639105689191 / 18014398509481984)
      = 1351079888211149 / 2251799813685248 := by
    rw [toDouble_of_binade _ (-1) 5404319552844596 (by norm_num) (by norm_num)
      (by norm_num [roundHalfEven])]
    norm_num
  have h4 : toDouble (9007199254740993 / 9007199254740992) = 1 := by
    rw [toDouble_of_binade _ 0 4503599627370496 (by norm_num) (by norm_num)
      (by norm_num [roundHalfEven])]
    norm_num
  have h5 : toDouble (5404319552844595 / 9007199254740992)
      = 5404319552844595 / 9007199254740992 := by
    rw [toDouble_of_binade _ (-1) 5404319552844595 (by norm_num) (by norm_num)
      (by norm_num [roundHalfEven])]
    norm_num
  obtain ⟨d1, d2, d3, d4, d6⟩ := toDouble_tenths
  have htotal : exampleSampler4.totalWeight = 1 := by
    simp only [exampleSampler4, exampleWeights4, d1, d2, d3, d4, List.foldl_cons,
      List.foldl_nil]
    norm_num [h1, h2, h3, h4]
  refine ⟨htotal, ?_⟩
  rw [htotal, exampleDraw, d6]
  norm_num [h5]

theorem pickLoop_exampleWeights3 : pickLoop exampleWeights3 3 0 (some exampleDraw) = none := by
  obtain ⟨d1, d2, d3, _, d6⟩ := toDouble_tenths
  obtain ⟨s1, s2⟩ := toDouble_differences
  simp only [exampleWeights3, exampleDraw, d1, d2, d3, d6]
  norm_num [pickLoop, s1, s2, toDouble_zero]

theorem pickLoop_exampleWeights4 : pickLoop exampleWeights4 4 0 (some exampleDraw) = some 3 := by
  obtain ⟨d1, d2, d3, d4, d6⟩ := toDouble_tenths
  obtain ⟨s1, s2⟩ := toDouble_differences
  simp only [exampleWeights4, exampleDraw, d1, d2, d3, d4, d6]
  norm_num [pickLoop, s1, s2, toDouble_zero]

/-- C13, at the failing inputs. The weights `[0.1, 0.2, 0.3]` and
`[0.1, 0.2, 0.3, 0.4]` are non-negative and the draw `r = 0.6` satisfies
`0 ≤ r < totalWeight`. With three weights the loop of `pick` runs to its end
and the fallback returns the last item; this is the draw that `pick()` makes
of `Math.random() = 0.9999999999999998`. With four weights the least index
`i` with `r < weights[0] + … + weights[i]` is 2, which the scan of the
specification returns in exact arithmetic, and `pick` returns item 3; this
is the draw that `pick()` makes of `Math.random() = 0.6`. -/
theorem pick_misses_by_rounding :
    (∀ w ∈ exampleWeights4, 0 ≤ w)
      ∧ 0 ≤ exampleDraw
      ∧ exampleDraw < (WeightedRandom.create ['A', 'B', 'C'] exampleWeights3).totalWeight
      ∧ exampleDraw < exampleSampler.totalWeight
      ∧ pickLoop exampleWeights3 3 0 (some exampleDraw) = none
      ∧ (WeightedRandom.create ['A', 'B', 'C'] exampleWeights3).pickAt exampleDraw = some 'C'
      ∧ exampleSampler.pick (4503599627370495 / 4503599627370496) = some 'C'
      ∧ exampleDraw < (WeightedRandom.create ['A', 'B', 'C', 'D'] exampleWeights4).totalWeight
      ∧ (exampleWeights4.take 2).sum ≤ exampleDraw
      ∧ exampleDraw < (exampleWeights4.take 3).sum
      ∧ pickLoopExact exampleWeights4 4 0 (some exampleDraw) = some 2
      ∧ pickLoop exampleWeights4 4 0 (some exampleDraw) = some 3
      ∧ (WeightedRandom.create ['A', 'B', 'C', 'D'] exampleWeights4).pickAt exampleDraw
          = some 'D'
      ∧ exampleSampler4.pick exampleDraw = some 'D' := by
  obtain ⟨d1, d2, d3, d4, d6⟩ := toDouble_tenths
  obtain ⟨htotal, hdraw⟩ := exampleSampler_draw
  obtain ⟨_, hdraw4⟩ := exampleSampler4_draw
  refine ⟨?_, ?_, ?_, ?_, pickLoop_exampleWeights3, ?_, ?_, ?_, ?_, ?_, ?_,
    pickLoop_exampleWeights4, ?_, ?_⟩
  · intro w hw
    simp only [exampleWeights4, d1, d2, d3, d4, List.mem_cons, List.mem_singleton,
      List.not_mem_nil, or_false] at hw
    rcases hw with rfl | rfl | rfl | rfl <;> norm_num
  · rw [exampleDraw, d6]; norm_num
  · rw [totalWeight_create]
    simp only [exampleWeights3, exampleDraw, d1, d2, d3, d6]
    norm_num
  · rw [htotal, exampleDraw, d6]; norm_num
  · have hloop : pickLoop (WeightedRandom.create ['A', 'B', 'C'] exampleWeights3).weights
        (WeightedRandom.create ['A', 'B', 'C'] exampleWeights3).items.length 0
        (some exampleDraw) = none := pickLoop_exampleWeights3
    simp only [WeightedRandom.pickAt, hloop]
    rfl
  · have hloop : pickLoop exampleSampler.weights exampleSampler.items.length 0
        (some exampleDraw) = none := pickLoop_exampleWeights3
    simp only [WeightedRandom.pick, WeightedRandom.pickAt, hdraw, hloop]
    rfl
  · rw [totalWeight_create]
    simp only [exampleWeights4, exampleDraw, d1, d2, d3, d4, d6]
    norm_num
  · simp only [exampleWeights4, exampleDraw, d1, d2, d3, d4, d6]
    norm_num
  · simp only [exampleWeights4, exampleDraw, d1, d2, d3, d4, d6]
    norm_num
  · simp only [exampleWeights4, exampleDraw, d1, d2, d3, d4, d6]
    norm_num [pickLoopExact]
  · have hloop : pickLoop (WeightedRandom.create ['A', 'B', 'C', 'D'] exampleWeights4).weights
        (WeightedRandom.create ['A', 'B', 'C', 'D'] exampleWeights4).items.length 0
        (some exampleDraw) = some 3 := pickLoop_exampleWeights4
    simp only [WeightedRandom.pickAt, hloop]
    rfl
  · have hloop : pickLoop exampleSampler4.weights exampleSampler4.items.length 0
        (some exampleDraw) = some 3 := pickLoop_exampleWeights4
    simp only [WeightedRandom.pick, WeightedRandom.pickAt, hdraw4, hloop]
    rfl

/-! ## Theorems: losing lines -/

theorem calculateLineWin_losing {σ : Type} [DecidableEq σ] (symbols : List (Option σ))
    (payouts : PayoutTable σ) (betPerLine : ℚ) (h : losingLine payouts symbols) :
    calculateLineWin symbols payouts betPerLine = { amount := 0, count := 0 } := by
  rcases h with h | ⟨hne, payout, hp, hc⟩
  · simp only [calculateLineWin, h]
  · simp only [calculateLineWin, hp, countLoop_line symbols hne, hc]

theorem paylineStep_losing {σ : Type} [DecidableEq σ] (results : List (List σ))
    (payouts : PayoutTable σ) (betPerLine : ℚ) (acc : PaylineWins σ) (payline : List ℤ)
    (lineIndex : ℕ) (hlen : payline.length ≤ results.length)
    (h : losingLine payouts (paylineSymbols results payline)) :
    paylineStep results payouts betPerLine acc payline lineIndex = some acc := by
  simp [paylineStep, lineSymbolsLoop_paylineSymbols results payline hlen,
    calculateLineWin_losing _ payouts betPerLine h]

theorem winningLineAt_lineIndex {σ : Type} [DecidableEq σ] (grid : List (List σ))
    (payouts : PayoutTable σ) (betPerLine : ℚ) (p : ℕ × List ℤ) (w : WinningLine σ)
    (h : winningLineAt grid payouts betPerLine p = some w) :
    w.lineIndex = p.1 + 1
      ∧ 0 < (calculateLineWin (paylineSymbols grid p.2) payouts betPerLine).amount := by
  unfold winningLineAt at h
  by_cases hw : (calculateLineWin (paylineSymbols grid p.2) payouts betPerLine).amount > 0
  · simp only [hw, if_true, Option.some.injEq] at h
    exact ⟨by rw [← h], hw⟩
  · simp [hw] at h

/-- C14: a losing line (no table entry for `symbols[0]`, or none for its run
length) gets amount 0 from `calculateLineWin`; and in `calculatePaylineWins`,
on a grid with at least as many reels as every payline is long, the pass of
the loop for a losing payline at position `k` leaves `totalWin` and
`winningLines` as they are, the call returns a result, and no winning line of
the result carries the label `k + 1`. -/
theorem losing_line_contributes_nothing {σ : Type} [DecidableEq σ] (results : List (List σ))
    (paylines : List (List ℤ)) (payouts : PayoutTable σ) (betPerLine : ℚ) (k : ℕ)
    (payline : List ℤ) (hlen : ∀ q ∈ paylines, q.length ≤ results.length)
    (hk : paylines[k]? = some payline)
    (hlose : losingLine payouts (paylineSymbols results payline)) :
    (∀ symbols : List (Option σ), losingLine payouts symbols →
        calculateLineWin symbols payouts betPerLine = { amount := 0, count := 0 })
      ∧ (∀ acc : PaylineWins σ,
          paylineStep results payouts betPerLine acc payline k = some acc)
      ∧ ∃ res, calculatePaylineWins results paylines payouts betPerLine = some res
          ∧ (∀ w ∈ res.winningLines, w.lineIndex ≠ k + 1)
          ∧ res.totalWin = (res.winningLines.map (fun w => w.amount)).sum := by
  have hmem : payline ∈ paylines := List.mem_iff_getElem?.mpr ⟨k, hk⟩
  refine ⟨fun symbols h => calculateLineWin_losing symbols payouts betPerLine h,
    fun acc => paylineStep_losing results payouts betPerLine acc payline k (hlen _ hmem) hlose,
    _, paylineLoop_eq results payouts betPerLine paylines hlen 0 _, ?_, by simp⟩
  intro w hw hidx
  simp only [List.nil_append, List.mem_filterMap] at hw
  obtain ⟨p, hp, hpw⟩ := hw
  obtain ⟨hi, hpos⟩ := winningLineAt_lineIndex results payouts betPerLine p w hpw
  have hp1 : p.1 = k := by omega
  have hp2 : paylines[p.1]? = some p.2 := List.mem_enum_iff_getElem?.mp hp
  rw [hp1, hk] at hp2
  have hp3 : p.2 = payline := (Option.some.inj hp2).symm
  rw [hp3, calculateLineWin_losing _ payouts betPerLine hlose] at hpos
  exact lt_irrefl _ hpos

/-- Witness for C14: the 5 × 1 grid `[S,T,S,S,S]`, the payline `[0,0,0,0,0]`
and the table `S → {3: 30}`, which has no entry for a run of 1. -/
theorem losing_line_contributes_nothing_witness :
    ∃ res, calculatePaylineWins [['S'], ['T'], ['S'], ['S'], ['S']] [[0, 0, 0, 0, 0]]
        (fun s => if s = some 'S' then some (fun c => if c = 3 then some 30 else none) else none) 1
        = some res
      ∧ (∀ w ∈ res.winningLines, w.lineIndex ≠ 0 + 1)
      ∧ res.totalWin = (res.winningLines.map (fun w => w.amount)).sum :=
  (losing_line_contributes_nothing [['S'], ['T'], ['S'], ['S'], ['S']] [[0, 0, 0, 0, 0]]
    (fun s => if s = some 'S' then some (fun c => if c = 3 then some 30 else none) else none) 1
    0 [0, 0, 0, 0, 0] (by simp) rfl
    (Or.inr ⟨by simp [paylineSymbols],
      fun c => if c = 3 then some 30 else none,
      by simp [paylineSymbols, List.enum, jsIndex],
      by simp [paylineSymbols, List.enum, jsIndex, List.takeWhile]⟩)).2.2

/-! ## Theorems: stop requests and restarts -/

theorem preload_of_early {σ : Type} (r : Reel σ) (elapsed loadTargetsAt : ℚ)
    (h : elapsed < loadTargetsAt) : preload r elapsed loadTargetsAt = r := by
  unfold preload
  rw [if_neg]
  intro hc
  exact absurd h (not_lt.mpr hc.2)

theorem enterSlowdown_of_stopping {σ : Type} (r : Reel σ) (now : ℚ) (h : r.stopping = true) :
    enterSlowdown r now = r := by
  unfold enterSlowdown
  rw [if_neg]
  simp [h]

/-- A tick on a spinning reel whose stop was requested before the load
threshold, while its eased speed is still at least 0.3: the reel moves, wraps
and takes the eased speed; nothing loads the targets. -/
theorem update_stop_requested_early {σ : Type} (r : Reel σ) (tk : Tick σ)
    (hspin : r.spinning = true) (hstop : r.stopping = true)
    (hearly : tk.now - r.spinStartTime
      < (r.config.spinDuration + (r.index : ℚ) * 200) * (4 / 10 - (r.index : ℚ) * (2 / 100)))
    (hspeed : ¬ r.spinSpeed
      * (1 - (1 - (1 - min ((tk.nowEase - r.slowdownStartTime) / 1000) 1) ^ 4)) < 3 / 10) :
    update r tk = some
      { moveAndWrap r (tk.now - r.spinStartTime)
          ((r.config.spinDuration + (r.index : ℚ) * 200) * (4 / 10 - (r.index : ℚ) * (2 / 100)))
          tk.pick with
        currentSpeed := r.spinSpeed
          * (1 - (1 - (1 - min ((tk.nowEase - r.slowdownStartTime) / 1000) 1) ^ 4)) } := by
  have hs : ¬ r.spinning = false := by simp [hspin]
  unfold update
  rw [if_neg hs]
  simp only []
  rw [preload_of_early _ _ _ hearly]
  have hstop1 : (moveAndWrap r (tk.now - r.spinStartTime)
      ((r.config.spinDuration + (r.index : ℚ) * 200) * (4 / 10 - (r.index : ℚ) * (2 / 100)))
      tk.pick).stopping = true := hstop
  rw [if_pos (Or.inl hstop1)]
  unfold slowdown
  rw [enterSlowdown_of_stopping _ _ hstop1]
  simp only []
  rw [if_neg]
  · rfl
  · exact hspeed

/-- C15, at the failing input: reel 0 is started at time 0 towards
`['B','A','A','A']` and a stop is requested at time 100, before the load
threshold 500. The reel is then spinning and stopping with `targetsLoaded`
false and a strip that does not carry the targets (symbol 0 shows `A`, the
target is `B`), and it is still so after the tick at time 116. -/
theorem stop_request_skips_preload :
    (stopImmediately exampleSpinning 100).spinning = true
      ∧ (stopImmediately exampleSpinning 100).stopping = true
      ∧ (stopImmediately exampleSpinning 100).targetsLoaded = false
      ∧ ¬ carriesTargets (stopImmediately exampleSpinning 100)
      ∧ (update (stopImmediately exampleSpinning 100) (exampleTick 116)).map
          (fun r => (r.spinning, r.stopping, r.targetsLoaded, r.symbols[0]?))
        = some (true, true, false, some { value := some 'A', y := 25 }) := by
  refine ⟨rfl, rfl, rfl, ?_, ?_⟩
  · intro h
    have h0 := h 0 (by decide)
    revert h0
    decide
  · rw [update_stop_requested_early _ _ rfl rfl
      (by norm_num [stopImmediately, exampleSpinning, exampleTick, startSpin, exampleReel,
        Reel.create, exampleConfig])
      (by norm_num [stopImmediately, exampleSpinning, exampleTick, startSpin, exampleReel,
        Reel.create, exampleConfig])]
    norm_num [moveAndWrap, wrapSymbol, stopImmediately, exampleSpinning, exampleTick,
      startSpin, exampleReel, Reel.create, exampleConfig, List.getElem?_mapIdx,
      List.range_succ_eq_map]

/-- C16, counterexample: on reel 0, already slowing since a stop request at
time 100, a second stop request at time 300 moves `slowdownStartTime` from 100
to 300; and on the reel as constructed (not spinning, not stopping) a stop
request sets `stopping`. -/
theorem stop_request_not_ignored :
    (stopImmediately exampleSpinning 100).stopping = true
      ∧ (stopImmediately exampleSpinning 100).slowdownStartTime = 100
      ∧ (stopImmediately (stopImmediately exampleSpinning 100) 300).slowdownStartTime = 300
      ∧ exampleReel.spinning = false
      ∧ exampleReel.stopping = false
      ∧ (stopImmediately exampleReel 300).stopping = true := by
  refine ⟨rfl, rfl, rfl, rfl, rfl, rfl⟩

/-- C16 (amended): on every reel state `stopImmediately` leaves every state
field other than `stopping` and `slowdownStartTime` unchanged and sets
`stopping`; on a reel that was not yet stopping it sets `slowdownStartTime` to
the current time; on a reel that is not spinning the request changes nothing
that is seen later: `update()` still returns the state as it is, and the next
`startSpin` gives the same state as it would have given without the request. -/
theorem stopImmediately_frame {σ : Type} (r : Reel σ) (now : ℚ) :
    (stopImmediately r now).index = r.index
      ∧ (stopImmediately r now).config = r.config
      ∧ (stopImmediately r now).symbols = r.symbols
      ∧ (stopImmediately r now).spinning = r.spinning
      ∧ (stopImmediately r now).targetSymbols = r.targetSymbols
      ∧ (stopImmediately r now).targetsLoaded = r.targetsLoaded
      ∧ (stopImmediately r now).spinSpeed = r.spinSpeed
      ∧ (stopImmediately r now).currentSpeed = r.currentSpeed
      ∧ (stopImmediately r now).spinStartTime = r.spinStartTime
      ∧ (stopImmediately r now).stopping = true
      ∧ (r.stopping = false → (stopImmediately r now).slowdownStartTime = now)
      ∧ (r.spinning = false →
          ∀ tk : Tick σ, update (stopImmediately r now) tk = some (stopImmediately r now))
      ∧ (∀ (targetSymbols : List σ) (t : ℚ),
          startSpin (stopImmediately r now) targetSymbols t = startSpin r targetSymbols t) := by
  refine ⟨rfl, rfl, rfl, rfl, rfl, rfl, rfl, rfl, rfl, rfl, fun _ => rfl, ?_, fun _ _ => rfl⟩
  intro h tk
  unfold update
  rw [if_pos (show (stopImmediately r now).spinning = false from h)]

/-- Witness for C16 (amended): a stop request on reel 0 as constructed, which
is not spinning. -/
theorem stopImmediately_frame_witness :
    update (stopImmediately exampleReel 300) (exampleTick 316)
      = some (stopImmediately exampleReel 300) :=
  (stopImmediately_frame exampleReel 300).2.2.2.2.2.2.2.2.2.2.2.1 rfl (exampleTick 316)

/-- C17, counterexample: reel 0 is spinning towards `['B','A','A','A']` since
time 0 and slowing since time 100; a call of `startSpin(['C','A','A','A'])` at
time 200 replaces the targets, moves `spinStartTime` to 200, clears
`slowdownStartTime` and clears `stopping`. -/
theorem startSpin_not_ignored :
    (stopImmediately exampleSpinning 100).spinning = true
      ∧ (stopImmediately exampleSpinning 100).targetSymbols = ['B', 'A', 'A', 'A']
      ∧ (startSpin (stopImmediately exampleSpinning 100) ['C', 'A', 'A', 'A'] 200).targetSymbols
          = ['C', 'A', 'A', 'A']
      ∧ (stopImmediately exampleSpinning 100).spinStartTime = 0
      ∧ (startSpin (stopImmediately exampleSpinning 100) ['C', 'A', 'A', 'A'] 200).spinStartTime
          = 200
      ∧ (stopImmediately exampleSpinning 100).slowdownStartTime = 100
      ∧ (startSpin (stopImmediately exampleSpinning 100)
          ['C', 'A', 'A', 'A'] 200).slowdownStartTime = 0
      ∧ (stopImmediately exampleSpinning 100).stopping = true
      ∧ (startSpin (stopImmediately exampleSpinning 100) ['C', 'A', 'A', 'A'] 200).stopping
          = false := by
  refine ⟨rfl, rfl, rfl, rfl, rfl, rfl, rfl, rfl, rfl⟩

/-- C17 (amended): a spin command given to the game while it is spinning does
not restart any reel: `Game.spin` then calls `stopImmediately` on every reel,
which leaves `targetSymbols`, `targetsLoaded`, `currentSpeed` and
`spinStartTime` unchanged; `Game.spin` calls `startSpin` only when the game is
not spinning (and the balance covers the bet). `Reel.startSpin` itself sets the
six fields on every reel state, spinning or not. -/
theorem spin_while_spinning {σ : Type} (g : Game σ) (pick : ℕ → ℕ → σ) (now : ℕ → ℚ)
    (hspinning : g.spinning = true) :
    (g.spin pick now).reels.length = g.reels.length
      ∧ (∀ i r, g.reels[i]? = some r →
          ∃ r', (g.spin pick now).reels[i]? = some r'
            ∧ r' = stopImmediately r (now i)
            ∧ r'.targetSymbols = r.targetSymbols
            ∧ r'.targetsLoaded = r.targetsLoaded
            ∧ r'.currentSpeed = r.currentSpeed
            ∧ r'.spinStartTime = r.spinStartTime)
      ∧ (∀ g' : Game σ, g'.spinning = false → ¬ g'.balance < g'.getTotalBet →
          ∀ i r, g'.reels[i]? = some r →
            (g'.spin pick now).reels[i]?
              = some (startSpin r ((List.range g'.rows).map (fun (row : ℕ) => pick i row))
                  (now i)))
      ∧ (∀ (r : Reel σ) (targetSymbols : List σ) (t : ℚ),
          (startSpin r targetSymbols t).targetSymbols = targetSymbols
            ∧ (startSpin r targetSymbols t).targetsLoaded = false
            ∧ (startSpin r targetSymbols t).currentSpeed = r.spinSpeed
            ∧ (startSpin r targetSymbols t).spinStartTime = t
            ∧ (startSpin r targetSymbols t).slowdownStartTime = 0
            ∧ (startSpin r targetSymbols t).stopping = false) := by
  have hspin : g.spin pick now
      = { g with reels := g.reels.mapIdx (fun index reel => stopImmediately reel (now index)) } := by
    unfold Game.spin
    rw [if_neg (by simp [hspinning])]
  refine ⟨?_, ?_, ?_, fun _ _ _ => ⟨rfl, rfl, rfl, rfl, rfl, rfl⟩⟩
  · rw [hspin]
    simp
  · intro i r hr
    refine ⟨stopImmediately r (now i), ?_, rfl, rfl, rfl, rfl, rfl⟩
    rw [hspin]
    simp [List.getElem?_mapIdx, hr]
  · intro g' hs hbal i r hr
    unfold Game.spin
    rw [if_pos hs, if_neg hbal]
    simp [List.getElem?_mapIdx, hr]

/-- Witness for C17 (amended): the spin button pressed on `exampleGame`, which
is spinning; its reel keeps its targets and its start time. -/
theorem spin_while_spinning_witness :
    ∃ r', (exampleGame.spin (fun _ _ => 'C') (fun _ => 100)).reels[0]? = some r'
      ∧ r' = stopImmediately exampleSpinning 100
      ∧ r'.targetSymbols = exampleSpinning.targetSymbols
      ∧ r'.targetsLoaded = exampleSpinning.targetsLoaded
      ∧ r'.currentSpeed = exampleSpinning.currentSpeed
      ∧ r'.spinStartTime = exampleSpinning.spinStartTime :=
  (spin_while_spinning exampleGame (fun _ _ => 'C') (fun _ => 100) rfl).2.1 0
    exampleSpinning rfl

/-! ## Theorems: step patterns -/

theorem bounce_of_two_le (rows : ℕ) (step a : ℤ) (hrows : 2 ≤ rows)
    (hstep : step = -1 ∨ step = 1) (ha0 : 0 ≤ a) (ha : a < (rows : ℤ)) :
    bounce rows (a + step)
        = (if a + step < 0 then 1 else if a + step ≥ (rows : ℤ) then (rows : ℤ) - 2 else a + step)
      ∧ 0 ≤ bounce rows (a + step) ∧ bounce rows (a + step) < (rows : ℤ)
      ∧ |bounce rows (a + step) - a| = 1 := by
  have hr : (2 : ℤ) ≤ (rows : ℤ) := by exact_mod_cast hrows
  unfold bounce
  simp only []
  rcases hstep with rfl | rfl
  · by_cases h0 : a + -1 < 0
    · have ha' : a = 0 := by omega
      subst ha'
      have h1 : ¬ (1 : ℤ) ≥ (rows : ℤ) := by omega
      simp [h1]
      omega
    · have h1 : ¬ a + -1 ≥ (rows : ℤ) := by omega
      simp only [h0, h1, if_false]
      refine ⟨trivial, by omega, by omega, ?_⟩
      rw [show a + -1 - a = -1 by ring]
      rfl
  · have h0 : ¬ a + 1 < 0 := by omega
    by_cases h1 : a + 1 ≥ (rows : ℤ)
    · simp only [h0, h1, if_false, if_true]
      refine ⟨trivial, by omega, by omega, ?_⟩
      have ha' : a = (rows : ℤ) - 1 := by omega
      rw [ha', show (rows : ℤ) - 2 - ((rows : ℤ) - 1) = -1 by ring]
      rfl
    · simp only [h0, h1, if_false]
      refine ⟨trivial, by omega, by omega, ?_⟩
      rw [show a + 1 - a = 1 by ring]
      rfl

theorem stepWalk_length (rows : ℕ) (step : ℤ) (n : ℕ) (currentRow : ℤ) :
    (stepWalk rows step n currentRow).length = n := by
  induction n generalizing currentRow with
  | zero => rfl
  | succ n ih => simp [stepWalk, ih]

theorem stepWalk_head (rows : ℕ) (step : ℤ) (n : ℕ) (currentRow : ℤ) :
    (stepWalk rows step (n + 1) currentRow)[0]? = some currentRow := by
  simp [stepWalk]

theorem stepWalk_next (rows : ℕ) (step : ℤ) (n : ℕ) (currentRow : ℤ) (i : ℕ) (a b : ℤ)
    (ha : (stepWalk rows step n currentRow)[i]? = some a)
    (hb : (stepWalk rows step n currentRow)[i + 1]? = some b) :
    b = bounce rows (a + step) := by
  induction n generalizing currentRow i with
  | zero => simp [stepWalk] at ha
  | succ n ih =>
    cases i with
    | zero =>
      simp only [stepWalk, List.getElem?_cons_zero, Option.some.injEq] at ha
      simp only [stepWalk, List.getElem?_cons_succ] at hb
      cases n with
      | zero => simp [stepWalk] at hb
      | succ m =>
        rw [stepWalk_head] at hb
        rw [← ha]
        exact (Option.some.inj hb).symm
    | succ j =>
      simp only [stepWalk, List.getElem?_cons_succ] at ha hb
      exact ih _ j ha hb

theorem stepWalk_range (rows : ℕ) (step : ℤ) (n : ℕ) (currentRow : ℤ) (hrows : 2 ≤ rows)
    (hstep : step = -1 ∨ step = 1) (h0 : 0 ≤ currentRow) (h1 : currentRow < (rows : ℤ)) :
    ∀ x ∈ stepWalk rows step n currentRow, 0 ≤ x ∧ x < (rows : ℤ) := by
  induction n generalizing currentRow with
  | zero => simp [stepWalk]
  | succ n ih =>
    intro x hx
    simp only [stepWalk, List.mem_cons] at hx
    rcases hx with rfl | hx
    · exact ⟨h0, h1⟩
    · obtain ⟨_, hb0, hb1, _⟩ := bounce_of_two_le rows step currentRow hrows hstep h0 h1
      exact ih _ hb0 hb1 x hx

theorem mem_pushIfNew (lines : List (List ℤ)) (pattern p : List ℤ)
    (h : p ∈ pushIfNew lines pattern) : p ∈ lines ∨ p = pattern := by
  unfold pushIfNew at h
  split_ifs at h
  · exact Or.inl h
  · simpa using h

theorem mem_foldl_pushIfNew {α : Type} (f : α → List ℤ) (xs : List α) (lines : List (List ℤ))
    (p : List ℤ) (h : p ∈ xs.foldl (fun lines x => pushIfNew lines (f x)) lines) :
    p ∈ lines ∨ ∃ x ∈ xs, p = f x := by
  induction xs generalizing lines with
  | nil => exact Or.inl h
  | cons x rest ih =>
    rcases ih _ h with h1 | ⟨y, hy, hp⟩
    · rcases mem_pushIfNew _ _ _ h1 with h2 | h2
      · exact Or.inl h2
      · exact Or.inr ⟨x, List.mem_cons_self _ _, h2⟩
    · exact Or.inr ⟨y, List.mem_cons_of_mem _ hy, hp⟩

theorem mem_stepWalks (reels rows : ℕ) (starts : List ℕ) (lines : List (List ℤ)) (p : List ℤ)
    (h : p ∈ starts.foldl (fun lines (startRow : ℕ) =>
      [-1, 0, 1].foldl (fun lines (step : ℤ) =>
        if step = 0 then lines
        else pushIfNew lines (stepWalk rows step reels (startRow : ℤ))) lines) lines) :
    p ∈ lines ∨ ∃ startRow ∈ starts, ∃ d : ℤ, (d = -1 ∨ d = 1)
      ∧ p = stepWalk rows d reels (startRow : ℤ) := by
  induction starts generalizing lines with
  | nil => exact Or.inl h
  | cons s rest ih =>
    rcases ih _ h with h1 | ⟨y, hy, d, hd, hp⟩
    · simp only [List.foldl_cons, List.foldl_nil] at h1
      norm_num at h1
      rcases mem_pushIfNew _ _ _ h1 with h2 | h2
      · rcases mem_pushIfNew _ _ _ h2 with h3 | h3
        · exact Or.inl h3
        · exact Or.inr ⟨s, List.mem_cons_self _ _, -1, Or.inl rfl, h3⟩
      · exact Or.inr ⟨s, List.mem_cons_self _ _, 1, Or.inr rfl, h2⟩
    · exact Or.inr ⟨y, List.mem_cons_of_mem _ hy, d, hd, hp⟩

/-- Every pattern returned by `generateStepPatterns()` is a walk from a start
row below `rows` with step −1 or +1, or one of the five cycling patterns. -/
theorem mem_generateStepPatterns (reels rows : ℕ) (p : List ℤ)
    (h : p ∈ generateStepPatterns reels rows) :
    (∃ startRow, startRow < rows ∧ ∃ d : ℤ, (d = -1 ∨ d = 1)
        ∧ p = stepWalk rows d reels (startRow : ℤ))
      ∨ ∃ i, i < 5 ∧ p = cyclePattern reels rows i := by
  unfold generateStepPatterns at h
  have h1 := List.mem_of_mem_take h
  rcases mem_foldl_pushIfNew _ _ _ _ h1 with h2 | ⟨i, hi, hp⟩
  · rcases mem_stepWalks reels rows _ _ _ h2 with h3 | ⟨s, hs, d, hd, hp⟩
    · simp at h3
    · exact Or.inl ⟨s, List.mem_range.mp hs, d, hd, hp⟩
  · exact Or.inr ⟨i, List.mem_range.mp hi, hp⟩

/-- C18: for `rows ≥ 2`, a start row in `[0, rows)` and a step `d` of −1 or
+1, the walk of `generateStepPatterns` over `reels` reels has `reels` entries,
starts with the start row, and each next entry is the previous entry plus `d`,
replaced by 1 when that is below 0 and by `rows − 2` when it is `≥ rows`;
consecutive entries differ by exactly 1 and every entry lies in `[0, rows)`.
For every number of rows and every start the next entry is the previous one
plus the step, replaced by 1 when below 0 and after that by `rows − 2` when
`≥ rows`. The patterns of `generateStepPatterns` other than its cycling
patterns are such walks. For 5 × 4, start 0 gives `[0,1,2,3,2]` with step +1 and `[0,1,0,1,0]` with
step −1. -/
theorem stepWalk_reflects (reels rows startRow : ℕ) (d : ℤ) (hrows : 2 ≤ rows)
    (hstart : startRow < rows) (hd : d = -1 ∨ d = 1) :
    (stepWalk rows d reels (startRow : ℤ)).length = reels
      ∧ (0 < reels → (stepWalk rows d reels (startRow : ℤ))[0]? = some (startRow : ℤ))
      ∧ (∀ i a b, (stepWalk rows d reels (startRow : ℤ))[i]? = some a →
          (stepWalk rows d reels (startRow : ℤ))[i + 1]? = some b →
          b = (if a + d < 0 then 1 else if a + d ≥ (rows : ℤ) then (rows : ℤ) - 2 else a + d)
            ∧ |b - a| = 1)
      ∧ (∀ x ∈ stepWalk rows d reels (startRow : ℤ), 0 ≤ x ∧ x < (rows : ℤ))
      ∧ (∀ (rows' : ℕ) (d' c : ℤ) (n i : ℕ) (a b : ℤ),
          (stepWalk rows' d' n c)[i]? = some a → (stepWalk rows' d' n c)[i + 1]? = some b →
          b = (if (if a + d' < 0 then 1 else a + d') ≥ (rows' : ℤ) then (rows' : ℤ) - 2
               else (if a + d' < 0 then 1 else a + d')))
      ∧ (∀ p ∈ generateStepPatterns reels rows,
          (∃ s, s < rows ∧ ∃ e : ℤ, (e = -1 ∨ e = 1) ∧ p = stepWalk rows e reels (s : ℤ))
            ∨ ∃ i, i < 5 ∧ p = cyclePattern reels rows i)
      ∧ stepWalk 4 1 5 0 = [0, 1, 2, 3, 2]
      ∧ stepWalk 4 (-1) 5 0 = [0, 1, 0, 1, 0] := by
  have h0 : (0 : ℤ) ≤ (startRow : ℤ) := Int.natCast_nonneg _
  have h1 : (startRow : ℤ) < (rows : ℤ) := by exact_mod_cast hstart
  have hrange := stepWalk_range rows d reels (startRow : ℤ) hrows hd h0 h1
  refine ⟨stepWalk_length _ _ _ _, ?_, ?_, hrange,
    fun rows' d' c n i a b ha hb => stepWalk_next rows' d' n c i a b ha hb,
    fun p hp => mem_generateStepPatterns reels rows p hp, by decide, by decide⟩
  · intro hpos
    obtain ⟨n, rfl⟩ : ∃ n, reels = n + 1 := ⟨reels - 1, by omega⟩
    exact stepWalk_head _ _ _ _
  · intro i a b ha hb
    have hb' := stepWalk_next rows d reels (startRow : ℤ) i a b ha hb
    have hmem : a ∈ stepWalk rows d reels (startRow : ℤ) :=
      List.mem_iff_getElem?.mpr ⟨i, ha⟩
    obtain ⟨ha0, ha1⟩ := hrange a hmem
    obtain ⟨heq, _, _, habs⟩ := bounce_of_two_le rows d a hrows hd ha0 ha1
    rw [hb']
    exact ⟨heq, habs⟩

/-- Witness for C18: the walk from row 3 with step +1 on the 5 × 4 grid. -/
theorem stepWalk_reflects_witness :
    (stepWalk 4 1 5 ((3 : ℕ) : ℤ)).length = 5
      ∧ (∀ x ∈ stepWalk 4 1 5 ((3 : ℕ) : ℤ), 0 ≤ x ∧ x < ((4 : ℕ) : ℤ)) :=
  ⟨(stepWalk_reflects 5 4 3 1 (by decide) (by decide) (Or.inr rfl)).1,
   (stepWalk_reflects 5 4 3 1 (by decide) (by decide) (Or.inr rfl)).2.2.2.1⟩

/-! ## Theorems: finalize and construction -/

/-- C19: on a reel whose strip is at least `rows` long, `finalizeStop` returns
a state on which a second `finalizeStop` returns that same state: symbol
values, symbol positions, `spinning`, `stopping` and every other field are
those left by the first call. -/
theorem finalizeStop_idempotent {σ : Type} (r : Reel σ)
    (hstrip : r.config.rows ≤ r.symbols.length) :
    ∃ r1, finalizeStop r = some r1 ∧ finalizeStop r1 = some r1 := by
  refine ⟨_, finalizeStop_eq r hstrip, ?_⟩
  rw [finalizeStop_eq _ (by simpa using hstrip)]
  congr 2
  apply List.ext_getElem?
  intro i
  simp only [List.getElem?_mapIdx, Option.map_map]
  cases r.symbols[i]? with
  | none => rfl
  | some symbol => by_cases hi : i < r.config.rows <;> simp [hi]

/-- Witness for C19: reel 0 after the pre-load rewrite. -/
theorem finalizeStop_idempotent_witness :
    ∃ r1, finalizeStop (loadTargetSymbolsSmooth exampleSpinning) = some r1
      ∧ finalizeStop r1 = some r1 :=
  finalizeStop_idempotent (loadTargetSymbolsSmooth exampleSpinning) (by decide)

/-- C20, counterexample: the constructor builds a sampler from two items and
one weight, and from weights whose total is 0, where the construction of the
specification fails. -/
theorem create_accepts_malformed :
    (WeightedRandom.createChecked ['A', 'B'] [1] = none
        ∧ WeightedRandom.create ['A', 'B'] [1]
          = { items := ['A', 'B'], weights := [1], totalWeight := 1 })
      ∧ (WeightedRandom.createChecked ['A', 'B'] [0, 0] = none
        ∧ WeightedRandom.create ['A', 'B'] [0, 0]
          = { items := ['A', 'B'], weights := [0, 0], totalWeight := 0 }) := by
  refine ⟨⟨?_, ?_⟩, ⟨?_, ?_⟩⟩
  · simp [WeightedRandom.createChecked]
  · simp [WeightedRandom.create]
  · simp [WeightedRandom.createChecked]
  · simp [WeightedRandom.create]

/-- C20 (amended): for every item array and weight array the constructor
builds a sampler that holds the two arrays and the sum of the weights as
`totalWeight`; when the arrays have the same length and the total is positive
it is the sampler of the specification, and in the other cases, where the
specification fails, it is built all the same. -/
theorem create_always_builds {σ : Type} (items : List σ) (weights : List ℚ) :
    (WeightedRandom.create items weights).items = items
      ∧ (WeightedRandom.create items weights).weights = weights
      ∧ (WeightedRandom.create items weights).totalWeight = weights.sum
      ∧ (items.length = weights.length ∧ 0 < weights.sum →
          WeightedRandom.createChecked items weights
            = some (WeightedRandom.create items weights))
      ∧ (¬ (items.length = weights.length ∧ 0 < weights.sum) →
          WeightedRandom.createChecked items weights = none) := by
  refine ⟨rfl, rfl, totalWeight_create items weights, ?_, ?_⟩
  · intro h
    simp only [WeightedRandom.createChecked, h, and_self, if_true]
    simp [WeightedRandom.create, List.sum_eq_foldl]
  · intro h
    simp only [WeightedRandom.createChecked, h, if_false]

/-- Witness for C20 (amended): the items and weights of the configured game's
first two symbols. -/
theorem create_always_builds_witness :
    WeightedRandom.createChecked ['A', 'B'] [25, 20]
      = some (WeightedRandom.create ['A', 'B'] [25, 20]) :=
  (create_always_builds ['A', 'B'] [25, 20]).2.2.2.1 ⟨rfl, by norm_num⟩

/-! ## Theorems: slowdown -/

theorem preload_frame {σ : Type} (r : Reel σ) (elapsed loadTargetsAt : ℚ) :
    (preload r elapsed loadTargetsAt).spinSpeed = r.spinSpeed
      ∧ (preload r elapsed loadTargetsAt).slowdownStartTime = r.slowdownStartTime
      ∧ (preload r elapsed loadTargetsAt).config = r.config
      ∧ (preload r elapsed loadTargetsAt).symbols.length = r.symbols.length := by
  unfold preload
  split_ifs
  · exact ⟨rfl, rfl, rfl, by simp [loadTargetSymbolsSmooth]⟩
  · exact ⟨rfl, rfl, rfl, rfl⟩

/-- One `update()` on a slowing reel (spinning and stopping): it returns a
state whose speed is the eased speed; the reel is finalized when that speed is
below 0.3 and is still slowing, with the same slowdown start, otherwise. -/
theorem update_slowing {σ : Type} (r : Reel σ) (tk : Tick σ)
    (hspin : r.spinning = true) (hstop : r.stopping = true)
    (hstrip : r.config.rows ≤ r.symbols.length) :
    ∃ r', update r tk = some r'
      ∧ r'.currentSpeed
          = r.spinSpeed * (1 - min ((tk.nowEase - r.slowdownStartTime) / 1000) 1) ^ 4
      ∧ r'.spinSpeed = r.spinSpeed
      ∧ r'.slowdownStartTime = r.slowdownStartTime
      ∧ r'.config = r.config
      ∧ r'.symbols.length = r.symbols.length
      ∧ (r.spinSpeed * (1 - min ((tk.nowEase - r.slowdownStartTime) / 1000) 1) ^ 4 < 3 / 10 →
          r'.spinning = false ∧ r'.stopping = false)
      ∧ (¬ r.spinSpeed * (1 - min ((tk.nowEase - r.slowdownStartTime) / 1000) 1) ^ 4 < 3 / 10 →
          r'.spinning = true ∧ r'.stopping = true) := by
  have hs : ¬ r.spinning = false := by simp [hspin]
  unfold update
  rw [if_neg hs]
  simp only []
  generalize tk.now - r.spinStartTime = elapsed
  generalize (r.config.spinDuration + (r.index : ℚ) * 200) = slowAt
  generalize slowAt * (4 / 10 - (r.index : ℚ) * (2 / 100)) = loadAt
  obtain ⟨hps, hpt, hpc, hplen⟩ := preload_frame (moveAndWrap r elapsed loadAt tk.pick) elapsed loadAt
  have hpstop := preload_stopping (moveAndWrap r elapsed loadAt tk.pick) elapsed loadAt
  have hpspin : (preload (moveAndWrap r elapsed loadAt tk.pick) elapsed loadAt).spinning
      = r.spinning := by
    unfold preload
    split_ifs <;> rfl
  have hlen1 : (moveAndWrap r elapsed loadAt tk.pick).symbols.length = r.symbols.length := by
    simp [moveAndWrap]
  generalize preload (moveAndWrap r elapsed loadAt tk.pick) elapsed loadAt = r2
    at hps hpt hpc hplen hpstop hpspin
  have hs2 : r2.spinSpeed = r.spinSpeed := hps
  have ht2 : r2.slowdownStartTime = r.slowdownStartTime := hpt
  have hc2 : r2.config = r.config := hpc
  have hlen2 : r2.symbols.length = r.symbols.length := hplen.trans hlen1
  have hstop2 : r2.stopping = true := hpstop.trans hstop
  have hspin2 : r2.spinning = true := hpspin.trans hspin
  rw [if_pos (Or.inl hstop2)]
  unfold slowdown
  rw [enterSlowdown_of_stopping r2 tk.nowSlowdown hstop2]
  simp only []
  have hspeed : r2.spinSpeed * (1 - (1 - (1 - min ((tk.nowEase - r2.slowdownStartTime) / 1000) 1) ^ 4))
      = r.spinSpeed * (1 - min ((tk.nowEase - r.slowdownStartTime) / 1000) 1) ^ 4 := by
    rw [hs2, ht2]
    ring
  rw [hspeed]
  generalize r.spinSpeed * (1 - min ((tk.nowEase - r.slowdownStartTime) / 1000) 1) ^ 4 = speed
  by_cases hfin : speed < 3 / 10
  · rw [if_pos hfin]
    refine ⟨_, finalizeStop_eq { r2 with currentSpeed := speed }
      (by simp only [hc2, hlen2]; exact hstrip), rfl, hs2, ht2, hc2, ?_, fun _ => ⟨rfl, rfl⟩,
      fun h => absurd hfin h⟩
    simp only [List.length_mapIdx]
    exact hlen2
  · rw [if_neg hfin]
    exact ⟨_, rfl, rfl, hs2, ht2, hc2, hlen2, fun h => absurd h hfin,
      fun _ => ⟨hspin2, hstop2⟩⟩

theorem eased_speed_antitone (spinSpeed e1 e2 : ℚ) (hspeed : 0 ≤ spinSpeed) (h : e1 ≤ e2) :
    spinSpeed * (1 - min (e2 / 1000) 1) ^ 4 ≤ spinSpeed * (1 - min (e1 / 1000) 1) ^ 4 := by
  have hp : min (e1 / 1000) 1 ≤ min (e2 / 1000) 1 :=
    min_le_min (div_le_div_of_nonneg_right h (by norm_num)) (le_refl 1)
  have h2 : (0 : ℚ) ≤ 1 - min (e2 / 1000) 1 := by
    have := min_le_right (e2 / 1000) (1 : ℚ)
    linarith
  exact mul_le_mul_of_nonneg_left (pow_le_pow_left₀ h2 (by linarith) 4) hspeed

/-- C21: on a slowing reel (spinning and stopping, strip at least `rows` long)
`update()` returns a state whose `currentSpeed` is `spinSpeed × (1 − p)^4` with
`p = min(slowdownElapsed / 1000, 1)`: it is `spinSpeed` when the elapsed time is
0 and 0 when the elapsed time is 1000 or more, and in that case the reel is
finalized (`spinning` is false). For a non-negative `spinSpeed` the speed set
by a following `update()` at a later clock time is not larger. -/
theorem slowing_speed_and_stop {σ : Type} (r : Reel σ) (tk tk' : Tick σ)
    (hspin : r.spinning = true) (hstop : r.stopping = true)
    (hstrip : r.config.rows ≤ r.symbols.length) :
    ∃ r' r'', update r tk = some r' ∧ update r' tk' = some r''
      ∧ r'.currentSpeed
          = r.spinSpeed * (1 - min ((tk.nowEase - r.slowdownStartTime) / 1000) 1) ^ 4
      ∧ (tk.nowEase - r.slowdownStartTime = 0 → r'.currentSpeed = r.spinSpeed)
      ∧ (1000 ≤ tk.nowEase - r.slowdownStartTime →
          r'.currentSpeed = 0 ∧ r'.spinning = false ∧ r'.stopping = false)
      ∧ (0 ≤ r.spinSpeed → tk.nowEase ≤ tk'.nowEase → r''.currentSpeed ≤ r'.currentSpeed) := by
  obtain ⟨r', hr', hcur, hs', ht', hc', hlen', hfin, hnot⟩ := update_slowing r tk hspin hstop hstrip
  have hlate : 1000 ≤ tk.nowEase - r.slowdownStartTime →
      r.spinSpeed * (1 - min ((tk.nowEase - r.slowdownStartTime) / 1000) 1) ^ 4 = 0 := by
    intro h
    have h1 : (1 : ℚ) ≤ (tk.nowEase - r.slowdownStartTime) / 1000 := by
      rw [le_div_iff₀ (by norm_num)]
      linarith
    rw [min_eq_right h1]
    norm_num
  by_cases hf : r.spinSpeed * (1 - min ((tk.nowEase - r.slowdownStartTime) / 1000) 1) ^ 4 < 3 / 10
  · -- finalized by the first tick: the second tick leaves the state as it is
    have hstopped : r'.spinning = false := (hfin hf).1
    have hr'' : update r' tk' = some r' := by
      unfold update
      rw [if_pos hstopped]
    refine ⟨r', r', hr', hr'', hcur, ?_, ?_, fun _ _ => le_refl _⟩
    · intro h0
      rw [hcur, h0]
      norm_num
    · intro h
      exact ⟨by rw [hcur, hlate h], hfin hf⟩
  · -- still slowing after the first tick
    obtain ⟨hspin', hstop'⟩ := hnot hf
    obtain ⟨r'', hr'', hcur'', _⟩ :=
      update_slowing r' tk' hspin' hstop' (by rw [hc', hlen']; exact hstrip)
    refine ⟨r', r'', hr', hr'', hcur, ?_, ?_, ?_⟩
    · intro h0
      rw [hcur, h0]
      norm_num
    · intro h
      rw [hlate h] at hf
      exact absurd (by norm_num : (0 : ℚ) < 3 / 10) hf
    · intro hspeed hclock
      rw [hcur'', hcur, hs', ht']
      exact eased_speed_antitone r.spinSpeed _ _ hspeed (by linarith)

/-- Witness for C21: reel 0, slowing since the stop request at time 100; a
tick at time 1100 finalizes it, and a tick at time 1116 follows. -/
theorem slowing_speed_and_stop_witness :
    ∃ r' r'', update (stopImmediately exampleSpinning 100) (exampleTick 1100) = some r'
      ∧ update r' (exampleTick 1116) = some r''
      ∧ r'.currentSpeed = 0 ∧ r'.spinning = false ∧ r'.stopping = false := by
  obtain ⟨r', r'', h1, h2, _, _, hlate, _⟩ :=
    slowing_speed_and_stop (stopImmediately exampleSpinning 100) (exampleTick 1100)
      (exampleTick 1116) rfl rfl (by decide)
  exact ⟨r', r'', h1, h2,
    hlate (by norm_num [stopImmediately, exampleSpinning, exampleTick, startSpin])⟩

end SlotGame
